import Mathlib

/-!
Verification development for the PingMe reminder bot.

The development shallowly embeds the parts of the code base that the
checked properties talk about:

* a model of Python naive datetime values together with the timedelta and
  relativedelta arithmetic used by app/services/scheduler.py
  (field-for-field translation of the CPython ordinal algorithm);
* character-level models of the regular expressions and text passes of
  app/bot/handlers/reminders.py (normalisation, fragment extraction,
  ambiguity detection, residue stripping);
* a state model of the reminder database, the job table of the APScheduler
  wrapper and the callback handlers.

Definitions come first, all theorems afterwards.
-/

/-- Python datetime fields (naive wall-clock value).  Validity of the
field ranges is tracked by the separate predicate dtValid. -/
structure PyDateTime where
  year : Nat
  month : Nat
  day : Nat
  hour : Nat
  minute : Nat
  second : Nat
deriving DecidableEq

/-- Gregorian leap-year rule, as used by Python datetime. -/
def isLeap (y : Nat) : Bool :=
  y % 4 == 0 && (y % 100 != 0 || y % 400 == 0)

/-- Length of a month; 0 for an out-of-range month number. -/
def daysInMonth (y m : Nat) : Nat :=
  match m with
  | 1 => 31
  | 2 => if isLeap y then 29 else 28
  | 3 => 31
  | 4 => 30
  | 5 => 31
  | 6 => 30
  | 7 => 31
  | 8 => 31
  | 9 => 30
  | 10 => 31
  | 11 => 30
  | 12 => 31
  | _ => 0

/-- Days in year y that lie before month m (months are 1-based). -/
def daysBeforeMonth (y : Nat) : Nat → Nat
  | 0 => 0
  | m + 1 => daysBeforeMonth y m + daysInMonth y m

/-- Days before January 1 of year y, the CPython days_before_year formula. -/
def daysBeforeYear (y : Nat) : Nat :=
  365 * (y - 1) + (y - 1) / 4 + (y - 1) / 400 - (y - 1) / 100

/-- Proleptic Gregorian ordinal of the date part, as in CPython ymd2ord. -/
def toOrdinal (d : PyDateTime) : Nat :=
  daysBeforeYear d.year + daysBeforeMonth d.year d.month + d.day

/-- Seconds since the epoch of the proleptic calendar; Python comparison
of naive datetimes is chronological, so the model compares via toSecs. -/
def toSecs (d : PyDateTime) : Nat :=
  toOrdinal d * 86400 + d.hour * 3600 + d.minute * 60 + d.second

/-- Field ranges of a constructible Python datetime (the model leaves the
year unbounded above; the MAXYEAR check is kept where the code performs an
explicit replace, see replaceYear). -/
def dtValid (d : PyDateTime) : Prop :=
  1 ≤ d.year ∧ 1 ≤ d.month ∧ d.month ≤ 12 ∧ 1 ≤ d.day ∧
    d.day ≤ daysInMonth d.year d.month ∧
    d.hour ≤ 23 ∧ d.minute ≤ 59 ∧ d.second ≤ 59

instance (d : PyDateTime) : Decidable (dtValid d) := by
  unfold dtValid; infer_instance

/-- Successor day in the civil calendar. -/
def nextDay (d : PyDateTime) : PyDateTime :=
  if d.day < daysInMonth d.year d.month then
    { d with day := d.day + 1 }
  else if d.month < 12 then
    { d with month := d.month + 1, day := 1 }
  else
    { d with year := d.year + 1, month := 1, day := 1 }

/-- timedelta(days = n) addition on a naive datetime. -/
def addDays : Nat → PyDateTime → PyDateTime
  | 0, d => d
  | n + 1, d => addDays n (nextDay d)

/-- timedelta(hours = n) addition on a naive datetime. -/
def addHours (n : Nat) (d : PyDateTime) : PyDateTime :=
  addDays ((d.hour + n) / 24) { d with hour := (d.hour + n) % 24 }

/-- relativedelta(months = 1): advance the month, clamping the day to the
end of the target month (dateutil semantics). -/
def addMonthClamped (d : PyDateTime) : PyDateTime :=
  if d.month = 12 then
    { d with year := d.year + 1, month := 1,
             day := min d.day (daysInMonth (d.year + 1) 1) }
  else
    { d with month := d.month + 1,
             day := min d.day (daysInMonth d.year (d.month + 1)) }

/-- relativedelta(years = 1): advance the year, clamping Feb 29 to Feb 28. -/
def addYearClamped (d : PyDateTime) : PyDateTime :=
  { d with year := d.year + 1,
           day := min d.day (daysInMonth (d.year + 1) d.month) }

/-- datetime.replace(year = y): returns none exactly when the Python call
raises ValueError (day out of range for the new month, or the year outside
MINYEAR..MAXYEAR). -/
def replaceYear (d : PyDateTime) (y : Nat) : Option PyDateTime :=
  if 1 ≤ y ∧ y ≤ 9999 ∧ d.day ≤ daysInMonth y d.month then
    some { d with year := y }
  else
    none

/-! ## Recurrence advancement (app/services/scheduler.py) -/

/-- The five recurrence strings accepted by the scheduler. -/
def hourlyS : List Char := ("hourly").data
def dailyS : List Char := ("daily").data
def weeklyS : List Char := ("weekly").data
def monthlyS : List Char := ("monthly").data
def yearlyS : List Char := ("yearly").data

/-- Translation of scheduler._next_occurrence.  An unrecognised recurrence
string raises ValueError in the source; the model returns none there. -/
def next_occurrence (remind_at : PyDateTime) (recurrence : List Char) :
    Option PyDateTime :=
  if recurrence = hourlyS then some (addHours 1 remind_at)
  else if recurrence = dailyS then some (addDays 1 remind_at)
  else if recurrence = weeklyS then some (addDays 7 remind_at)
  else if recurrence = monthlyS then some (addMonthClamped remind_at)
  else if recurrence = yearlyS then some (addYearClamped remind_at)
  else none

/-- A recurrence string the scheduler knows. -/
def knownKind (k : List Char) : Prop :=
  k = hourlyS ∨ k = dailyS ∨ k = weeklyS ∨ k = monthlyS ∨ k = yearlyS

instance (k : List Char) : Decidable (knownKind k) := by
  unfold knownKind; infer_instance

/-- k-fold iteration of the advancer. -/
def advIterN (kind : List Char) : Nat → PyDateTime → Option PyDateTime
  | 0, d => some d
  | n + 1, d => (next_occurrence d kind).bind (advIterN kind n)

/-- Fuel-indexed version of the while loop
  while next_dt <= now: next_dt = _next_occurrence(next_dt, kind)
from scheduler.load_pending_reminders.  The fuel only bounds the number of
iterations; with the fuel used by advanceUntilFuture it never runs out on a
valid start instant (proved below). -/
def advLoop (kind : List Char) (now : PyDateTime) :
    Nat → PyDateTime → Option PyDateTime
  | 0, cur => if toSecs cur ≤ toSecs now then none else some cur
  | f + 1, cur =>
      if toSecs cur ≤ toSecs now then
        (next_occurrence cur kind).bind (advLoop kind now f)
      else some cur

/-- The while loop itself: advance cur until it is strictly after now
(zero iterations when it already is). -/
def advanceUntilFuture (kind : List Char) (now cur : PyDateTime) :
    Option PyDateTime :=
  advLoop kind now (toSecs now + 1 - toSecs cur) cur

/-! ## Character-level text model

Texts are lists of characters; the regular expressions of
app/bot/handlers/reminders.py are modelled by hand-written positional
matchers that follow the patterns alternative by alternative, including
the greedy/backtracking order of the Python engine. -/

/-- Character of a text at a position, none past the end. -/
def getC (t : List Char) (i : Nat) : Option Char := t.get? i

/-- Python regex word character, restricted to the scripts the bot
handles: ASCII letters, digits, underscore and Cyrillic letters. -/
def isWordC (c : Char) : Bool :=
  c.isAlphanum || c == '_' || ('а' ≤ c && c ≤ 'я') || ('А' ≤ c && c ≤ 'Я') ||
    c == 'ё' || c == 'Ё'

/-- Python regex whitespace (the ASCII members of the re \s class). -/
def isPySpace (c : Char) : Bool :=
  c == ' ' || c == '\t' || c == '\n' || c == '\r' || c.toNat == 11 ||
    c.toNat == 12

/-- Lower-casing covering ASCII and Cyrillic, for IGNORECASE patterns. -/
def lowerRu (c : Char) : Char :=
  if 'А' ≤ c && c ≤ 'Я' then Char.ofNat (c.toNat + 32)
  else if c == 'Ё' then 'ё'
  else c.toLower

/-- Whether the character at position i is a word character. -/
def wordAt (t : List Char) (i : Nat) : Bool :=
  match getC t i with
  | some c => isWordC c
  | none => false

/-- The regex word boundary at position i. -/
def bndAt (t : List Char) (i : Nat) : Bool :=
  (if i = 0 then false else wordAt t (i - 1)) != wordAt t i

/-- Whether the character at position i is an ASCII digit. -/
def digitAt (t : List Char) (i : Nat) : Bool :=
  match getC t i with
  | some c => c.isDigit
  | none => false

/-- Numeric value of the digit at position i (0 past the end). -/
def dValAt (t : List Char) (i : Nat) : Nat :=
  match getC t i with
  | some c => c.toNat - 48
  | none => 0

/-- Whether position i holds exactly character c. -/
def charIs (t : List Char) (i : Nat) (c : Char) : Bool :=
  match getC t i with
  | some x => x == c
  | none => false

/-- Length of the maximal run of characters satisfying p. -/
def runLenAux (p : Char → Bool) : List Char → Nat
  | [] => 0
  | c :: cs => if p c then runLenAux p cs + 1 else 0

/-- Length of the maximal run of characters satisfying p from position i. -/
def runLen (p : Char → Bool) (t : List Char) (i : Nat) : Nat :=
  runLenAux p (t.drop i)

/-- Case-insensitive literal match at a position; the pattern is given in
lower case. -/
def litCIAt (t : List Char) (i : Nat) : List Char → Bool
  | [] => true
  | c :: cs =>
      match getC t i with
      | some x => lowerRu x == c && litCIAt t (i + 1) cs
      | none => false

/-- Inclusive character range test (character order is code-point order). -/
def chBetween (c lo hi : Char) : Bool :=
  lo.toNat ≤ c.toNat && c.toNat ≤ hi.toNat

/-- Substring of length len starting at i. -/
def sliceCh (t : List Char) (i len : Nat) : List Char :=
  (t.drop i).take len

/-- Text with the span of length len at i removed. -/
def excise (t : List Char) (i len : Nat) : List Char :=
  t.take i ++ t.drop (i + len)

/-- First successful application along a list (alternation order). -/
def firstSome : List α → (α → Option β) → Option β
  | [], _ => none
  | a :: as, f =>
      match f a with
      | some b => some b
      | none => firstSome as f

/-- Greedy match of one or two digits followed by the continuation k,
backtracking from two digits to one like the engine does for d{1,2};
k receives the numeric value and the position after the digits. -/
def tryD12 (t : List Char) (i : Nat) (k : Nat → Nat → Option β) : Option β :=
  if digitAt t i then
    match (if digitAt t (i + 1)
           then k (10 * dValAt t i + dValAt t (i + 1)) (i + 2)
           else none) with
    | some r => some r
    | none => k (dValAt t i) (i + 1)
  else none

/-- As tryD12 but the continuation receives the digit substring. -/
def tryD12g (t : List Char) (i : Nat) (k : List Char → Nat → Option β) :
    Option β :=
  if digitAt t i then
    match (if digitAt t (i + 1) then k (sliceCh t i 2) (i + 2) else none) with
    | some r => some r
    | none => k (sliceCh t i 1) (i + 1)
  else none

/-- As tryD12 but with a positional continuation only. -/
def tryD12p (t : List Char) (i : Nat) (k : Nat → Option β) : Option β :=
  if digitAt t i then
    match (if digitAt t (i + 1) then k (i + 2) else none) with
    | some r => some r
    | none => k (i + 1)
  else none

/-- All of the n characters from position s on are digits. -/
def allDigits (t : List Char) (s n : Nat) : Bool :=
  (List.range n).all (fun o => digitAt t (s + o))

/-! ## Keyword constants (lower case, for the IGNORECASE patterns) -/

def kwUtra : List Char := ("утра").data
def kwVechera : List Char := ("вечера").data
def kwVecherom : List Char := ("вечером").data
def kwNochi : List Char := ("ночи").data
def kwDnya : List Char := ("дня").data
def kwDnyom : List Char := ("днём").data
def kwChas : List Char := ("час").data
def kwCherez : List Char := ("через").data
def kwMinut : List Char := ("минут").data
def kwNapomni : List Char := ("напомни").data
def kwTe : List Char := ("те").data
def kwMne : List Char := ("мне").data

/-- The day-part keywords of the third alternative of the explicit-time
pattern, in alternation order. -/
def dayPartKws : List (List Char) :=
  [kwUtra, kwVechera, kwVecherom, kwNochi, kwDnya, kwDnyom]

/-- Lower-case Cyrillic range of the character class used for noun
endings; under IGNORECASE it also accepts the upper-case letters
(but never ё, which lies outside the range). -/
def cyrAZ (c : Char) : Bool :=
  'а' ≤ lowerRu c && lowerRu c ≤ 'я'

/-! ## The ambiguity pattern and the explicit-time pattern -/

/-- Positional matcher for the ambiguous dotted pair
  b(d{1,2}).(0[1-9]|1[0-2])b(?![./]d)
of reminders._AMBIG_DOT_RE; returns (length, hour guess, minute guess). -/
def matchAmbigAt (t : List Char) (i : Nat) : Option (Nat × Nat × Nat) :=
  if bndAt t i then
    tryD12 t i (fun h j =>
      if charIs t j '.' then
        let c1ok := charIs t (j + 1) '0' &&
          (match getC t (j + 2) with
           | some c => chBetween c '1' '9'
           | none => false)
        let c2ok := charIs t (j + 1) '1' &&
          (match getC t (j + 2) with
           | some c => chBetween c '0' '2'
           | none => false)
        if (c1ok || c2ok) && bndAt t (j + 3) &&
            !((charIs t (j + 3) '.' || charIs t (j + 3) '/') &&
              digitAt t (j + 4)) then
          some (j + 3 - i, h, 10 * dValAt t (j + 1) + dValAt t (j + 2))
        else none
      else none)
  else none

/-- First alternative of _EXPLICIT_TIME_RE: b d{1,2} [:-] d{2} b. -/
def expTimeColon (t : List Char) (i : Nat) : Bool :=
  bndAt t i &&
    (tryD12p t i (fun j =>
      if (charIs t j ':' || charIs t j '-') && digitAt t (j + 1) &&
          digitAt t (j + 2) && bndAt t (j + 3) then some () else none)).isSome

/-- Second alternative: b d{1,2} . (00|[2-9]d|1[3-9]) b — the safe dotted
time shapes. -/
def expTimeDot (t : List Char) (i : Nat) : Bool :=
  bndAt t i &&
    (tryD12p t i (fun j =>
      if charIs t j '.' then
        let m00 := charIs t (j + 1) '0' && charIs t (j + 2) '0'
        let m2x := (match getC t (j + 1) with
                    | some c => chBetween c '2' '9'
                    | none => false) && digitAt t (j + 2)
        let m1x := charIs t (j + 1) '1' &&
          (match getC t (j + 2) with
           | some c => chBetween c '3' '9'
           | none => false)
        if (m00 || m2x || m1x) && bndAt t (j + 3) then some () else none
      else none)).isSome

/-- Third alternative: b d{1,2} s* (утра|вечера|вечером|ночи|дня|днём) b. -/
def expTimeDayPart (t : List Char) (i : Nat) : Bool :=
  bndAt t i &&
    (tryD12p t i (fun j =>
      let s := j + runLen isPySpace t j
      firstSome dayPartKws (fun kw =>
        if litCIAt t s kw && bndAt t (s + kw.length) then some () else none))).isSome

/-- Fourth alternative: b через s+ d. -/
def expTimeCherez (t : List Char) (i : Nat) : Bool :=
  bndAt t i && litCIAt t i kwCherez &&
    (let r := runLen isPySpace t (i + 5)
     decide (1 ≤ r) && digitAt t (i + 5 + r))

/-- Fifth alternative: b d{1,2} s* час [а-я]* b. -/
def expTimeChas (t : List Char) (i : Nat) : Bool :=
  bndAt t i &&
    (tryD12p t i (fun j =>
      let s := j + runLen isPySpace t j
      if litCIAt t s kwChas then
        let e := s + 3 + runLen cyrAZ t (s + 3)
        if bndAt t e then some () else none
      else none)).isSome

/-- Sixth alternative: b в s+ d{1,2} b. -/
def expTimeV (t : List Char) (i : Nat) : Bool :=
  bndAt t i && litCIAt t i [('в')] &&
    (let r := runLen isPySpace t (i + 1)
     let k := i + 1 + r
     decide (1 ≤ r) && digitAt t k &&
       ((digitAt t (k + 1) && bndAt t (k + 2)) || bndAt t (k + 1)))

/-- One of the six alternatives of _EXPLICIT_TIME_RE matches at i. -/
def expTimeAt (t : List Char) (i : Nat) : Bool :=
  expTimeColon t i || expTimeDot t i || expTimeDayPart t i ||
    expTimeCherez t i || expTimeChas t i || expTimeV t i

/-- Translation of reminders._has_explicit_time. -/
def has_explicit_time (t : List Char) : Bool :=
  (List.range t.length).any (expTimeAt t)

/-! ## Leftmost search and the ambiguity finder -/

/-- Scan positions i, i+1, ... for the first match, with fuel. -/
def searchAux (p : Nat → Option α) : Nat → Nat → Option (Nat × α)
  | 0, _ => none
  | f + 1, i =>
      match p i with
      | some a => some (i, a)
      | none => searchAux p f (i + 1)

/-- Leftmost match among positions 0 ≤ i < n. -/
def searchFrom0 (p : Nat → Option α) (n : Nat) : Option (Nat × α) :=
  searchAux p n 0

/-- Translation of reminders._find_dot_ambiguity: leftmost match of the
ambiguous dotted pair; reject an hour guess above 23, and reject when the
text with the fragment removed still holds an explicit time. -/
def find_dot_ambiguity (t : List Char) :
    Option (List Char × Nat × Nat) :=
  match searchFrom0 (fun i => matchAmbigAt t i) t.length with
  | none => none
  | some (i, len, h, mn) =>
      if 23 < h then none
      else if has_explicit_time (excise t i len) then none
      else some (sliceCh t i len, h, mn)

/-! ## Substitution driver (re.sub with a replacement callback) -/

/-- Left-to-right non-overlapping substitution; the fuel only bounds the
number of scan steps and is instantiated with the text length. -/
def subAux (t : List Char) (m : List Char → Nat → Option (Nat × α))
    (repl : α → List Char) : Nat → Nat → List Char
  | 0, _ => []
  | f + 1, i =>
      if h : i < t.length then
        match m t i with
        | some (len, a) => repl a ++ subAux t m repl f (i + max len 1)
        | none => t.get ⟨i, h⟩ :: subAux t m repl f (i + 1)
      else []

/-- re.sub over a whole text. -/
def subAll (m : List Char → Nat → Option (Nat × α)) (repl : α → List Char)
    (t : List Char) : List Char :=
  subAux t m repl t.length 0

/-- Zero-padded two digit rendering, the Python format 02d. -/
def pad2 (n : Nat) : List Char :=
  if n < 10 then '0' :: (Nat.repr n).data else (Nat.repr n).data

/-! ## The normalisation pass (reminders._normalize_time) -/

/-- Negative lookahead of _IN_HOUR_RE:
  (?! s* (утра|вечера|вечером|ночи|дня|днём|час[а-я]*|[-:.]d) ). -/
def inHourLook (t : List Char) (j : Nat) : Bool :=
  let s := j + runLen isPySpace t j
  (dayPartKws.any (fun kw => litCIAt t s kw)) || litCIAt t s kwChas ||
    ((charIs t s '-' || charIs t s ':' || charIs t s '.') && digitAt t (s + 1))

/-- Matcher of _IN_HOUR_RE: b в s+ (d{1,2}) b (?!...); payload is the
parsed hour. -/
def matchInHourAt (t : List Char) (i : Nat) : Option (Nat × Nat) :=
  if bndAt t i && litCIAt t i [('в')] then
    let r := runLen isPySpace t (i + 1)
    if 1 ≤ r then
      tryD12 t (i + 1 + r) (fun h j =>
        if bndAt t j && !inHourLook t j then some (j - i, h) else none)
    else none
  else none

/-- Matcher of _DASH_TIME_RE: b (d{1,2}) - (d{2}) b; payload is the pair
of digit substrings. -/
def matchDashTimeAt (t : List Char) (i : Nat) :
    Option (Nat × List Char × List Char) :=
  if bndAt t i then
    tryD12g t i (fun g1 j =>
      if charIs t j '-' && digitAt t (j + 1) && digitAt t (j + 2) &&
          bndAt t (j + 3) then
        some (j + 3 - i, g1, sliceCh t (j + 1) 2)
      else none)
  else none

/-- Matcher of the digits-then-keyword shapes _MORNING_RE, _NIGHT_RE,
_EVENING_RE and _DAY_RE: b (d{1,2}) s* kw b with the given alternation
list; payload is the parsed hour. -/
def matchDigitsKwAt (kws : List (List Char)) (t : List Char) (i : Nat) :
    Option (Nat × Nat) :=
  if bndAt t i then
    tryD12 t i (fun h j =>
      let s := j + runLen isPySpace t j
      firstSome kws (fun kw =>
        if litCIAt t s kw && bndAt t (s + kw.length) then
          some (s + kw.length - i, h)
        else none))
  else none

/-- Matcher of _HOUR_RE: b (d{1,2}) s* час(ов|а|ах)? b. -/
def matchHourKwAt (t : List Char) (i : Nat) : Option (Nat × Nat) :=
  if bndAt t i then
    tryD12 t i (fun h j =>
      let s := j + runLen isPySpace t j
      if litCIAt t s kwChas then
        firstSome [("ов").data, ("а").data, ("ах").data, []]
          (fun sfx =>
            if litCIAt t (s + 3) sfx && bndAt t (s + 3 + sfx.length) then
              some (s + 3 + sfx.length - i, h)
            else none)
      else none)
  else none

/-- Matcher of _SAFE_DOT_TIME_RE: b (d{1,2}) . (00|[2-9]d|1[3-9]) b;
payload is the pair of group substrings. -/
def matchSafeDotAt (t : List Char) (i : Nat) :
    Option (Nat × List Char × List Char) :=
  if bndAt t i then
    tryD12g t i (fun g1 j =>
      if charIs t j '.' then
        let m00 := charIs t (j + 1) '0' && charIs t (j + 2) '0'
        let m2x := (match getC t (j + 1) with
                    | some c => chBetween c '2' '9'
                    | none => false) && digitAt t (j + 2)
        let m1x := charIs t (j + 1) '1' &&
          (match getC t (j + 2) with
           | some c => chBetween c '3' '9'
           | none => false)
        if (m00 || m2x || m1x) && bndAt t (j + 3) then
          some (j + 3 - i, g1, sliceCh t (j + 1) 2)
        else none
      else none)
  else none

/-- Replacement of the morning/night/bare-hour rules: 0H:00. -/
def replHour00 (h : Nat) : List Char := pad2 h ++ (":00").data

/-- Replacement of the evening/afternoon rules: ((H+12) mod 24):00. -/
def replEvening (h : Nat) : List Char := pad2 ((h + 12) % 24) ++ (":00").data

/-- Replacement turning a separator pair into a colon pair. -/
def replColonPair (g : List Char × List Char) : List Char :=
  g.1 ++ ':' :: g.2

/-- Translation of reminders._normalize_time, applying the eight
substitutions in source order. -/
def normalize_time (t : List Char) : List Char :=
  let t1 := subAll matchInHourAt
    (fun h => ('в') :: (' ') :: pad2 h ++ (":00").data) t
  let t2 := subAll matchDashTimeAt replColonPair t1
  let t3 := subAll (matchDigitsKwAt [kwUtra]) replHour00 t2
  let t4 := subAll (matchDigitsKwAt [kwNochi]) replHour00 t3
  let t5 := subAll (matchDigitsKwAt [kwVechera, kwVecherom]) replEvening t4
  let t6 := subAll (matchDigitsKwAt [kwDnya, kwDnyom]) replEvening t5
  let t7 := subAll matchHourKwAt replHour00 t6
  subAll matchSafeDotAt replColonPair t7

/-! ## Short date expansion (reminders._expand_short_dates) -/

/-- Either of the two separators of the numeric date patterns. -/
def sepAt (t : List Char) (i : Nat) : Bool :=
  charIs t i '.' || charIs t i '/'

/-- Matcher of _SHORT_DATE_RE: b (d{1,2}) [./] (d{1,2}) (?![./]d) b;
payload is the pair of group substrings. -/
def matchShortDateAt (t : List Char) (i : Nat) :
    Option (Nat × List Char × List Char) :=
  if bndAt t i then
    tryD12g t i (fun g1 j =>
      if sepAt t j then
        tryD12g t (j + 1) (fun g2 j2 =>
          if !(sepAt t j2 && digitAt t (j2 + 1)) && bndAt t j2 then
            some (j2 - i, g1, g2)
          else none)
      else none)
  else none

/-- Replacement of the short-date expansion: day.month.year. -/
def expandRepl (year : Nat) (g : List Char × List Char) : List Char :=
  g.1 ++ '.' :: g.2 ++ '.' :: (Nat.repr year).data

/-- Translation of reminders._expand_short_dates (the year argument is
always supplied by the callers modelled here). -/
def expand_short_dates (t : List Char) (year : Nat) : List Char :=
  subAll matchShortDateAt (expandRepl year) t

/-! ## Fragment extraction (reminders._extract_datetime_fragments) -/

/-- Matcher of _DATE_NUMERIC_RE:
  b d{1,2} [./] d{1,2} ([./]d{2,4})? b; payload is the match length. -/
def matchDateNumericAt (t : List Char) (i : Nat) : Option Nat :=
  if bndAt t i then
    tryD12p t i (fun j =>
      if sepAt t j then
        tryD12p t (j + 1) (fun j2 =>
          match (if sepAt t j2 then
                   firstSome [4, 3, 2] (fun n =>
                     if allDigits t (j2 + 1) n && bndAt t (j2 + 1 + n) then
                       some (j2 + 1 + n - i)
                     else none)
                 else none) with
          | some r => some r
          | none => if bndAt t j2 then some (j2 - i) else none)
      else none)
  else none

/-- Matcher of _TIME_RE:
  b d{1,2} [:.] d{2} b | b d{1,2} - d{2} b |
  b через s+ d+ s* (минут[а-я]*|час[а-я]*) b; payload is the length. -/
def matchTimeAt (t : List Char) (i : Nat) : Option Nat :=
  match (if bndAt t i then
           tryD12p t i (fun j =>
             if (charIs t j ':' || charIs t j '.') && digitAt t (j + 1) &&
                 digitAt t (j + 2) && bndAt t (j + 3) then
               some (j + 3 - i)
             else none)
         else none) with
  | some r => some r
  | none =>
    match (if bndAt t i then
             tryD12p t i (fun j =>
               if charIs t j '-' && digitAt t (j + 1) && digitAt t (j + 2) &&
                   bndAt t (j + 3) then
                 some (j + 3 - i)
               else none)
           else none) with
    | some r => some r
    | none =>
      if bndAt t i && litCIAt t i kwCherez then
        let r1 := runLen isPySpace t (i + 5)
        if 1 ≤ r1 then
          let b := i + 5 + r1
          let r2 := runLen (fun c => c.isDigit) t b
          if 1 ≤ r2 then
            let s := b + r2 + runLen isPySpace t (b + r2)
            match (if litCIAt t s kwMinut then some (s + 5) else none) with
            | some base =>
                let e := base + runLen cyrAZ t base
                if bndAt t e then some (e - i) else none
            | none =>
                if litCIAt t s kwChas then
                  let e := s + 3 + runLen cyrAZ t (s + 3)
                  if bndAt t e then some (e - i) else none
                else none
          else none
        else none
      else none

/-- A weekday-stem alternative of _DATE_WORDS_RE: the stem followed by a
greedy [а-я]* run, then the closing word boundary. -/
def stemRunAt (t : List Char) (i : Nat) (stem : List Char) : Option Nat :=
  if litCIAt t i stem then
    let e := i + stem.length + runLen cyrAZ t (i + stem.length)
    if bndAt t e then some e else none
  else none

/-- Exact-word alternative: the literal followed by the closing word
boundary. -/
def wordEndAt (t : List Char) (i : Nat) (w : List Char) : Option Nat :=
  if litCIAt t i w && bndAt t (i + w.length) then some (i + w.length)
  else none

/-- The seven accusative weekday names of the "в weekday" alternative. -/
def weekdayAccKws : List (List Char) :=
  [("понедельник").data, ("вторник").data, ("среду").data,
   ("четверг").data, ("пятницу").data, ("субботу").data,
   ("воскресенье").data]

/-- Matcher of _DATE_WORDS_RE, alternative by alternative in pattern
order; payload is the match length. -/
def matchDateWordsAt (t : List Char) (i : Nat) : Option Nat :=
  if bndAt t i then
    (firstSome
      [ wordEndAt t i (("сегодня").data),
        wordEndAt t i (("завтра").data),
        wordEndAt t i (("послезавтра").data),
        -- через s+ d+ s* (день|дня|дней|неделю|недели|недель)
        (if litCIAt t i kwCherez then
           let r1 := runLen isPySpace t (i + 5)
           if 1 ≤ r1 then
             let b := i + 5 + r1
             let r2 := runLen (fun c => c.isDigit) t b
             if 1 ≤ r2 then
               let s := b + r2 + runLen isPySpace t (b + r2)
               firstSome [("день").data, ("дня").data, ("дней").data,
                          ("неделю").data, ("недели").data, ("недель").data]
                 (fun kw =>
                   if litCIAt t s kw && bndAt t (s + kw.length) then
                     some (s + kw.length)
                   else none)
             else none
           else none
         else none),
        -- следующ(ий|ую|ее|ие) s+ w+
        (if litCIAt t i (("следующ").data) then
           firstSome [("ий").data, ("ую").data, ("ее").data, ("ие").data]
             (fun sfx =>
               if litCIAt t (i + 7) sfx then
                 let a := i + 7 + sfx.length
                 let r1 := runLen isPySpace t a
                 if 1 ≤ r1 then
                   let b := a + r1
                   let r2 := runLen isWordC t b
                   if 1 ≤ r2 && bndAt t (b + r2) then some (b + r2) else none
                 else none
               else none)
         else none),
        -- в s+ weekday-accusative
        (if litCIAt t i [('в')] then
           let r1 := runLen isPySpace t (i + 1)
           if 1 ≤ r1 then
             let b := i + 1 + r1
             firstSome weekdayAccKws (fun kw =>
               if litCIAt t b kw && bndAt t (b + kw.length) then
                 some (b + kw.length)
               else none)
           else none
         else none),
        stemRunAt t i (("понедельник").data),
        stemRunAt t i (("вторник").data),
        -- среду?
        (if litCIAt t i (("среду").data) && bndAt t (i + 5) then some (i + 5)
         else if litCIAt t i (("сред").data) && bndAt t (i + 4) then
           some (i + 4)
         else none),
        wordEndAt t i (("среды").data),
        stemRunAt t i (("четверг").data),
        stemRunAt t i (("пятниц").data),
        stemRunAt t i (("суббот").data),
        stemRunAt t i (("воскресень").data) ]
      (fun o => o)).map (fun e => e - i)
  else none

/-- finditer: all non-overlapping matches from the left, as substrings. -/
def iterAux (t : List Char) (m : List Char → Nat → Option Nat) :
    Nat → Nat → List (List Char)
  | 0, _ => []
  | f + 1, i =>
      if i < t.length then
        match m t i with
        | some len => sliceCh t i len :: iterAux t m f (i + max len 1)
        | none => iterAux t m f (i + 1)
      else []

/-- All matches of a pattern over a text. -/
def findIter (m : List Char → Nat → Option Nat) (t : List Char) :
    List (List Char) :=
  iterAux t m t.length 0

/-- De-duplication preserving first occurrences (the seen set of the
source). -/
def dedupF (seen : List (List Char)) : List (List Char) → List (List Char)
  | [] => []
  | x :: xs =>
      if x ∈ seen then dedupF seen xs else x :: dedupF (x :: seen) xs

/-- Python substring membership f in g. -/
def containsSeq (g f : List Char) : Bool :=
  (List.range (g.length + 1)).any (fun i => sliceCh g i f.length == f)

/-- Translation of reminders._extract_datetime_fragments: collect the
matches of the three patterns in order, de-duplicate, then drop any
fragment that is a proper substring of another fragment. -/
def extract_datetime_fragments (t : List Char) : List (List Char) :=
  let fs := dedupF []
    (findIter matchDateNumericAt t ++ findIter matchDateWordsAt t ++
     findIter matchTimeAt t)
  fs.filter (fun f => !(fs.any (fun g => f != g && containsSeq g f)))

/-! ## Trigger-phrase removal and residue stripping -/

/-- Translation of the _PREFIX_RE substitution:
  sub of the anchored pattern напомни(те)? s* (мне s*)? at the start. -/
def dropNapomni (t : List Char) : List Char :=
  if litCIAt t 0 kwNapomni then
    let a := if litCIAt t 7 kwTe then 9 else 7
    let b := a + runLen isPySpace t a
    let c := if litCIAt t b kwMne then b + 3 + runLen isPySpace t (b + 3)
             else b
    t.drop c
  else t

/-- Python str.strip(): whitespace removed from both ends. -/
def pyStrip (t : List Char) : List Char :=
  (((t.dropWhile isPySpace).reverse).dropWhile isPySpace).reverse

/-- str.replace(sub, empty): all non-overlapping occurrences removed,
scanning from the left. -/
def removeAllAux (t sub : List Char) : Nat → Nat → List Char
  | 0, _ => []
  | f + 1, i =>
      if h : i < t.length then
        if sub ≠ [] && sliceCh t i sub.length == sub then
          removeAllAux t sub f (i + sub.length)
        else
          t.get ⟨i, h⟩ :: removeAllAux t sub f (i + 1)
      else []

/-- str.replace(sub, empty) over a whole text. -/
def removeAll (t sub : List Char) : List Char :=
  removeAllAux t sub t.length 0

/-- Matcher of the residue rule b d{1,2} [./] (the dangling day-dot
remains of an excised fragment). -/
def matchDigitDotAt (t : List Char) (i : Nat) : Option (Nat × Unit) :=
  if bndAt t i then
    (tryD12p t i (fun j =>
      if sepAt t j then some (j + 1 - i) else none)).map (fun l => (l, ()))
  else none

/-- Matcher of s{2,}, a whitespace run of length at least two. -/
def matchSpaceRunAt (t : List Char) (i : Nat) : Option (Nat × Unit) :=
  let r := runLen isPySpace t i
  if 2 ≤ r then some (r, ()) else none

/-- The punctuation class of the residue trim: whitespace, comma and the
three dash characters. -/
def residuePunct (c : Char) : Bool :=
  isPySpace c || c == ',' || c == '-' || c == '–' || c == '—'

/-- The anchored residue trim sub: leading and trailing punctuation runs
removed. -/
def trimPunct (t : List Char) : List Char :=
  (((t.dropWhile residuePunct).reverse).dropWhile residuePunct).reverse

/-- The residue rule s+ в $ (IGNORECASE): a dangling trailing particle. -/
def dropTrailV (t : List Char) : List Char :=
  match t.reverse with
  | c :: rest =>
      if lowerRu c == 'в' then
        let k := runLenAux isPySpace rest
        if 1 ≤ k then (rest.drop k).reverse else t
      else t
  | [] => t

/-- The residue rule ^ в s+ (IGNORECASE): a dangling leading particle. -/
def dropLeadV (t : List Char) : List Char :=
  match t with
  | c :: rest =>
      if lowerRu c == 'в' then
        let k := runLenAux isPySpace rest
        if 1 ≤ k then rest.drop k else t
      else t
  | [] => t

/-- The residue computation of _parse_reminder: excise every fragment,
then apply the clean-up substitutions in source order. -/
def strip_residue (text : List Char) (fragments : List (List Char)) :
    List Char :=
  let s0 := fragments.foldl removeAll text
  let s1 := subAll matchDigitDotAt (fun _ => []) s0
  let s2 := subAll matchSpaceRunAt (fun _ => [(' ')]) s1
  let s3 := pyStrip s2
  let s4 := trimPunct s3
  dropLeadV (dropTrailV s4)

/-! ## Future shift and the parsing pipeline -/

/-- Translation of reminders._shift_to_future: a past instant is pushed
one year forward; none models the ValueError that datetime.replace raises
when the pushed date does not exist. -/
def shift_to_future (dt now : PyDateTime) : Option PyDateTime :=
  if toSecs dt ≤ toSecs now then replaceYear dt (dt.year + 1) else some dt

/-- Python control flow of a call that may raise. -/
inductive PyResult (α : Type) where
  | ok (a : α)
  | exn
deriving DecidableEq

/-- Space-join of the fragment list. -/
def joinSpace : List (List Char) → List Char
  | [] => []
  | [x] => x
  | x :: xs => x ++ ' ' :: joinSpace xs

/-- Translation of reminders._parse_reminder.  The external dateparser
library is an oracle argument dp; the remaining steps follow the source:
normalise, extract fragments, expand short dates with the reference year,
parse, shift to the future, then strip the fragments out of the text and
fall back to the stripped raw input when nothing remains. -/
def parse_reminder (dp : List Char → Option PyDateTime) (now : PyDateTime)
    (raw : List Char) : PyResult (Option (List Char × PyDateTime)) :=
  let text := normalize_time (dropNapomni (pyStrip raw))
  let fragments := extract_datetime_fragments text
  if fragments = [] then .ok none
  else
    match dp (expand_short_dates (joinSpace fragments) now.year) with
    | none => .ok none
    | some dt =>
        match shift_to_future dt now with
        | none => .exn
        | some dt2 =>
            let residue := strip_residue text fragments
            .ok (some ((if residue = [] then pyStrip raw else residue), dt2))

/-! ## Reminder rows, job table and the callback handlers

The reminders table row; the recurrence and recurrence_anchor columns are
declared by the alembic migrations d4e5f6a7b8c9 and e5f6a7b8c9d0 and read
by scheduler.load_pending_reminders. -/

structure Rem where
  user_id : Nat
  text : List Char
  remind_at : PyDateTime
  is_active : Bool
  is_confirmed : Bool
  is_snoozed : Bool
  message_id : Option Nat
  recurrence : Option (List Char)
  recurrence_anchor : Option PyDateTime
deriving DecidableEq

/-- The reminders table, keyed by primary key. -/
abbrev DB := List (Nat × Rem)

/-- The job table of the scheduler, reminder id to run date (the job id
string reminder_N is in bijection with N). -/
abbrev Jobs := List (Nat × PyDateTime)

/-- Key lookup in an association list. -/
def lookupK {α : Type} : List (Nat × α) → Nat → Option α
  | [], _ => none
  | (k, v) :: rest, key => if k = key then some v else lookupK rest key

/-- Remove a key (job.remove; a no-op when absent, like the guarded
_cancel_reminder_job). -/
def eraseK {α : Type} (xs : List (Nat × α)) (k : Nat) : List (Nat × α) :=
  xs.filter (fun p => p.1 ≠ k)

/-- Store a value under a key (add_job with replace_existing, or an ORM
update of the row). -/
def setK {α : Type} (xs : List (Nat × α)) (k : Nat) (v : α) :
    List (Nat × α) :=
  (k, v) :: eraseK xs k

/-- User-facing texts of the handlers (the parts the claims mention). -/
def notFoundAlert : List Char := ("Напоминание не найдено.").data
def notFoundMsg : List Char := ("❌ Напоминание не найдено.").data
def cancelledMsg : List Char := ("✅ Действие отменено.").data
def nothingToCancelMsg : List Char := ("Нечего отменять.").data
def emptyAnswer : List Char := []
def doneSuffix : List Char := ("✅ Выполнено").data
def snoozeSuffix : List Char := ("⏱ Отложено на 1 час").data
def reschedulePromptSuffix : List Char := ("✏️ На какое время перенести?").data
def snoozeDaySuffix : List Char := ("📅 Перенесено").data
def nextOccSuffix : List Char := ("Следующее:").data

/-- Rendered reminder banner of an edited message. -/
def banner (txt tail : List Char) : List Char :=
  ("⏰ Напоминание! ").data ++ txt ++ ' ' :: tail

/-- Result of one callback handler: the new tables, the edit_text payload
if the message was edited, and the answer sent to the actor. -/
structure HOut where
  db : DB
  jobs : Jobs
  edited : Option (List Char)
  answered : Option (List Char)
deriving DecidableEq

/-- The two actions of the rem:(done|snooze) callback route. -/
inductive CbAction where
  | done
  | snooze
deriving DecidableEq

/-- Translation of reminders.handle_reminder_callback (the handler of the
checked sources: confirm terminates, snooze defers one hour from now). -/
def handle_reminder_callback (now : PyDateTime) (db : DB) (jobs : Jobs)
    (actor rid : Nat) (action : CbAction) : HOut :=
  match lookupK db rid with
  | none => ⟨db, jobs, none, some notFoundAlert⟩
  | some rem =>
      if rem.user_id ≠ actor then ⟨db, jobs, none, some notFoundAlert⟩
      else
        match action with
        | .done =>
            let rem2 := { rem with is_confirmed := true, is_active := false }
            ⟨setK db rid rem2, eraseK jobs rid,
              some (banner rem.text doneSuffix), some emptyAnswer⟩
        | .snooze =>
            let at2 := addHours 1 now
            let rem2 := { rem with remind_at := at2, is_confirmed := false,
                                   is_snoozed := true, message_id := none }
            ⟨setK db rid rem2, setK (eraseK jobs rid) rid at2,
              some (banner rem.text snoozeSuffix), some emptyAnswer⟩

/-- Translation of reminders.handle_snooze_day. -/
def handle_snooze_day (now : PyDateTime) (db : DB) (jobs : Jobs)
    (actor rid : Nat) : HOut :=
  match lookupK db rid with
  | none => ⟨db, jobs, none, some notFoundAlert⟩
  | some rem =>
      if rem.user_id ≠ actor then ⟨db, jobs, none, some notFoundAlert⟩
      else
        let base := addDays 1 rem.remind_at
        let at2 := if toSecs base ≤ toSecs now then addDays 1 now else base
        let rem2 := { rem with remind_at := at2, is_confirmed := false,
                               is_snoozed := true, message_id := none }
        ⟨setK db rid rem2, setK (eraseK jobs rid) rid at2,
          some (banner rem.text snoozeDaySuffix), some emptyAnswer⟩

/-- Translation of reminders._do_delete (the path of the delete command);
the handler leaves the job table untouched and soft-deletes the row. -/
def do_delete (db : DB) (actor rid : Nat) : DB × List Char :=
  match lookupK db rid with
  | none => (db, notFoundMsg)
  | some rem =>
      if rem.user_id ≠ actor then (db, notFoundMsg)
      else (setK db rid { rem with is_active := false },
            ("✅ Напоминание удалено.").data)

/-- Conversation state of the reschedule sub-dialog; the source keeps the
reminder id and the original remind_at (as an isoformat string, a faithful
round trip) in the FSM data. -/
inductive Fsm where
  | idle
  | waitingReschedule (rid : Option Nat) (original : Option PyDateTime)
deriving DecidableEq

/-- Bot state: tables plus conversation state. -/
structure BotState where
  db : DB
  jobs : Jobs
  fsm : Fsm

/-- Result of a state-level handler. -/
structure SOut where
  state : BotState
  edited : Option (List Char)
  answered : Option (List Char)

/-- Translation of reminders.handle_reschedule_start: guard, capture the
original remind_at, cancel the armed job, then enter the sub-dialog. -/
def handle_reschedule_start (st : BotState) (actor rid : Nat) : SOut :=
  match lookupK st.db rid with
  | none => ⟨st, none, some notFoundAlert⟩
  | some rem =>
      if rem.user_id ≠ actor then ⟨st, none, some notFoundAlert⟩
      else
        ⟨⟨st.db, eraseK st.jobs rid,
          .waitingReschedule (some rid) (some rem.remind_at)⟩,
         some (banner rem.text reschedulePromptSuffix), some emptyAnswer⟩

/-- Translation of reminders.cmd_cancel: in the reschedule sub-dialog the
originally scheduled timer is restored, at the captured instant or at now
when that instant has passed; the Python truthiness test on the id keeps
an id of 0 from re-arming. -/
def cmd_cancel (now : PyDateTime) (st : BotState) : SOut :=
  match st.fsm with
  | .idle => ⟨st, none, some nothingToCancelMsg⟩
  | .waitingReschedule orid oorig =>
      let jobs2 :=
        match orid, oorig with
        | some rid, some orig =>
            if rid ≠ 0 then
              setK st.jobs rid (if toSecs now < toSecs orig then orig else now)
            else st.jobs
        | _, _ => st.jobs
      ⟨⟨st.db, jobs2, .idle⟩, none, some cancelledMsg⟩

/-! ## Startup re-registration (scheduler.load_pending_reminders) -/

/-- The loop body of load_pending_reminders for one snapshot row: an
overdue recurring reminder is advanced from its anchor (or from remind_at
when the anchor is null) until strictly after the owner's now, persisted
and scheduled; an overdue one-shot reminder gets a job at now; a future
reminder is scheduled at its remind_at.  An unknown recurrence string
raises out of the loop, modelled by exn. -/
def load_pending_step (now : PyDateTime) (acc : DB × Jobs)
    (entry : Nat × Rem) : PyResult (DB × Jobs) :=
  let db := acc.1
  let jobs := acc.2
  let rid := entry.1
  let r := entry.2
  if toSecs r.remind_at ≤ toSecs now then
    match r.recurrence with
    | some kind =>
        let anchor := r.recurrence_anchor.getD r.remind_at
        match advanceUntilFuture kind now anchor with
        | none => .exn
        | some next =>
            let db2 :=
              match lookupK db rid with
              | some r0 =>
                  setK db rid { r0 with remind_at := next,
                                        recurrence_anchor := some next }
              | none => db
            .ok (db2, setK jobs rid next)
    | none => .ok (db, setK jobs rid now)
  else
    .ok (db, setK jobs rid r.remind_at)

/-- Folding the loop body over the startup snapshot (the query filters on
is_active and not is_confirmed). -/
def load_pending_reminders (now : PyDateTime) (db : DB) (jobs : Jobs) :
    PyResult (DB × Jobs) :=
  (db.filter (fun p => p.2.is_active && !p.2.is_confirmed)).foldl
    (fun acc entry =>
      match acc with
      | .exn => .exn
      | .ok st => load_pending_step now st entry)
    (.ok (db, jobs))

/-! ## The recurring confirm branch -/

/-- Modelled from the spec: the recurring branch of the confirm action of
the reminder callback.  The branch is exercised by the repository's own
test suite (tests/test_recurrence.py drives handle_reminder_callback with
recurrence rows and imports _extract_recurrence) but is absent from the
checked handler sources, where handle_reminder_callback has no recurrence
branch; the spec (section 4.6, Confirm on recurring) prescribes: compute
the next occurrence from recurrenceAnchor via the advancer, looping the
advance until the result is strictly after now, set both remindAt and
recurrenceAnchor to that instant, leave active true and confirmed false,
re-schedule, and report the next occurrence.  The advancer itself is the
next_occurrence translation from the checked scheduler source. -/
def handle_done_recurring (now : PyDateTime) (db : DB) (jobs : Jobs)
    (actor rid : Nat) : PyResult HOut :=
  match lookupK db rid with
  | none => .ok ⟨db, jobs, none, some notFoundAlert⟩
  | some rem =>
      if rem.user_id ≠ actor then .ok ⟨db, jobs, none, some notFoundAlert⟩
      else
        match rem.recurrence with
        | none =>
            let rem2 := { rem with is_confirmed := true, is_active := false }
            .ok ⟨setK db rid rem2, eraseK jobs rid,
                  some (banner rem.text doneSuffix), some emptyAnswer⟩
        | some kind =>
            let anchor := rem.recurrence_anchor.getD rem.remind_at
            match (next_occurrence anchor kind).bind
                (advanceUntilFuture kind now) with
            | none => .exn
            | some next =>
                let rem2 := { rem with remind_at := next,
                                       recurrence_anchor := some next,
                                       is_confirmed := false }
                .ok ⟨setK db rid rem2, setK (eraseK jobs rid) rid next,
                      some (banner rem.text nextOccSuffix), some emptyAnswer⟩

/-! ## Claim-side readings used in the comparisons -/

/-- The claim-side reading of the ambiguity trigger: the text holds a
dotted pair whose hour guess is at most 23 (the matcher itself enforces a
minute guess in 01..12, proved below) and the text with that pair removed
holds no explicit time marker. -/
def ambigPairSomewhere (t : List Char) : Bool :=
  (List.range t.length).any (fun i =>
    match matchAmbigAt t i with
    | some (len, h, _) =>
        decide (h ≤ 23) && !has_explicit_time (excise t i len)
    | none => false)

/-- A user-written day or month number: the value, optionally zero-padded
to two digits as users write short dates. -/
def renderNum (pad : Bool) (n : Nat) : List Char :=
  if pad ∧ n < 10 then '0' :: (Nat.repr n).data else (Nat.repr n).data

/-! # Theorems

First the calendar arithmetic facts used by the scheduler claims. -/

theorem daysInMonth_bounds (y m : Nat) (h1 : 1 ≤ m) (h2 : m ≤ 12) :
    28 ≤ daysInMonth y m ∧ daysInMonth y m ≤ 31 := by
  interval_cases m <;> simp only [daysInMonth] <;> (try split) <;> omega

theorem daysBeforeMonth_succ (y m : Nat) :
    daysBeforeMonth y (m + 1) = daysBeforeMonth y m + daysInMonth y m := rfl

theorem daysBeforeMonth_thirteen (y : Nat) :
    daysBeforeMonth y 13 = if isLeap y then 366 else 365 := by
  cases hL : isLeap y <;>
    simp [daysBeforeMonth, daysInMonth, hL]

theorem isLeap_iff (y : Nat) :
    isLeap y = true ↔ (y % 4 = 0 ∧ (y % 100 ≠ 0 ∨ y % 400 = 0)) := by
  simp [isLeap]

set_option maxHeartbeats 1000000 in
theorem daysBeforeYear_succ (y : Nat) (hy : 1 ≤ y) :
    daysBeforeYear (y + 1) =
      daysBeforeYear y + (if isLeap y then 366 else 365) := by
  unfold daysBeforeYear
  cases h : isLeap y
  · have hnot : ¬(y % 4 = 0 ∧ (y % 100 ≠ 0 ∨ y % 400 = 0)) := by
      rw [← isLeap_iff y, h]; simp
    simp only [h, Nat.add_sub_cancel]
    norm_num
    omega
  · have hyes : y % 4 = 0 ∧ (y % 100 ≠ 0 ∨ y % 400 = 0) := (isLeap_iff y).mp h
    simp only [h, Nat.add_sub_cancel]
    norm_num
    omega

theorem nextDay_spec (d : PyDateTime) (v : dtValid d) :
    dtValid (nextDay d) ∧ toSecs (nextDay d) = toSecs d + 86400 := by
  obtain ⟨hy, hm1, hm2, hd1, hd2, hh, hmi, hs⟩ := v
  unfold nextDay
  split
  · next hlt =>
    refine ⟨⟨hy, hm1, hm2, ?_, ?_, hh, hmi, hs⟩, ?_⟩
    · show 1 ≤ d.day + 1
      omega
    · show d.day + 1 ≤ daysInMonth d.year d.month
      omega
    · show toSecs { d with day := d.day + 1 } = toSecs d + 86400
      simp [toSecs, toOrdinal]
      omega
  · next hge =>
    split
    · next hm12 =>
      have hdd : d.day = daysInMonth d.year d.month := by omega
      have hb := daysInMonth_bounds d.year (d.month + 1) (by omega) (by omega)
      refine ⟨⟨hy, ?_, ?_, ?_, ?_, hh, hmi, hs⟩, ?_⟩
      · show 1 ≤ d.month + 1
        omega
      · show d.month + 1 ≤ 12
        omega
      · show (1 : Nat) ≤ 1
        omega
      · show 1 ≤ daysInMonth d.year (d.month + 1)
        omega
      · show toSecs { d with month := d.month + 1, day := 1 } =
          toSecs d + 86400
        simp [toSecs, toOrdinal, daysBeforeMonth_succ]
        omega
    · next hm12 =>
      have hmeq : d.month = 12 := by omega
      have hdd : d.day = daysInMonth d.year d.month := by omega
      have key : daysBeforeYear (d.year + 1) =
          daysBeforeYear d.year + daysBeforeMonth d.year 12 +
            daysInMonth d.year 12 := by
        rw [daysBeforeYear_succ _ hy, ← daysBeforeMonth_thirteen,
          daysBeforeMonth_succ]
        omega
      refine ⟨⟨?_, ?_, ?_, ?_, ?_, hh, hmi, hs⟩, ?_⟩
      · show 1 ≤ d.year + 1
        omega
      · show (1 : Nat) ≤ 1
        omega
      · show (1 : Nat) ≤ 12
        omega
      · show (1 : Nat) ≤ 1
        omega
      · show (1 : Nat) ≤ daysInMonth (d.year + 1) 1
        have := daysInMonth_bounds (d.year + 1) 1 (by omega) (by omega)
        omega
      · show toSecs { d with year := d.year + 1, month := 1, day := 1 } =
          toSecs d + 86400
        simp [toSecs, toOrdinal]
        have h1 : daysBeforeMonth (d.year + 1) 1 = 0 := rfl
        rw [h1, hmeq]
        rw [hmeq] at hdd
        omega

theorem addDays_spec (n : Nat) (d : PyDateTime) (v : dtValid d) :
    dtValid (addDays n d) ∧ toSecs (addDays n d) = toSecs d + n * 86400 := by
  induction n generalizing d with
  | zero => exact ⟨v, by simp [addDays]⟩
  | succ k ih =>
      have h1 := nextDay_spec d v
      have h2 := ih (nextDay d) h1.1
      refine ⟨h2.1, ?_⟩
      show toSecs (addDays k (nextDay d)) = toSecs d + (k + 1) * 86400
      rw [h2.2, h1.2]
      ring

theorem addHours_spec (n : Nat) (d : PyDateTime) (v : dtValid d) :
    dtValid (addHours n d) ∧ toSecs (addHours n d) = toSecs d + n * 3600 := by
  obtain ⟨hy, hm1, hm2, hd1, hd2, hh, hmi, hs⟩ := v
  have hv2 : dtValid { d with hour := (d.hour + n) % 24 } :=
    ⟨hy, hm1, hm2, hd1, hd2, show (d.hour + n) % 24 ≤ 23 by omega, hmi, hs⟩
  have h2 := addDays_spec ((d.hour + n) / 24) _ hv2
  refine ⟨h2.1, ?_⟩
  rw [show addHours n d =
      addDays ((d.hour + n) / 24) { d with hour := (d.hour + n) % 24 } from rfl,
    h2.2]
  show (daysBeforeYear d.year + daysBeforeMonth d.year d.month + d.day) * 86400 +
      (d.hour + n) % 24 * 3600 + d.minute * 60 + d.second +
      (d.hour + n) / 24 * 86400 =
    (daysBeforeYear d.year + daysBeforeMonth d.year d.month + d.day) * 86400 +
      d.hour * 3600 + d.minute * 60 + d.second + n * 3600
  omega

theorem daysBeforeMonth_mono (y : Nat) {a b : Nat} (h : a ≤ b) :
    daysBeforeMonth y a ≤ daysBeforeMonth y b := by
  induction b with
  | zero =>
      have : a = 0 := by omega
      simp [this]
  | succ k ih =>
      rcases Nat.lt_or_ge a (k + 1) with hlt | hge
      · calc daysBeforeMonth y a ≤ daysBeforeMonth y k := ih (by omega)
          _ ≤ daysBeforeMonth y k + daysInMonth y k := Nat.le_add_right _ _
          _ = daysBeforeMonth y (k + 1) := (daysBeforeMonth_succ y k).symm
      · have : a = k + 1 := by omega
        simp [this]

theorem daysBeforeYear_mono {a b : Nat} (h1 : 1 ≤ a) (h : a ≤ b) :
    daysBeforeYear a ≤ daysBeforeYear b := by
  induction b with
  | zero => omega
  | succ k ih =>
      rcases Nat.lt_or_ge a (k + 1) with hlt | hge
      · have hk : 1 ≤ k := by omega
        have := daysBeforeYear_succ k hk
        have h2 := ih (by omega)
        split_ifs at this <;> omega
      · have : a = k + 1 := by omega
        simp [this]

theorem toOrdinal_le_year_end (d : PyDateTime) (v : dtValid d) :
    toOrdinal d ≤ daysBeforeYear (d.year + 1) := by
  obtain ⟨hy, hm1, hm2, hd1, hd2, hh, hmi, hs⟩ := v
  have h1 : daysBeforeMonth d.year d.month + d.day ≤
      daysBeforeMonth d.year 13 := by
    calc daysBeforeMonth d.year d.month + d.day
        ≤ daysBeforeMonth d.year d.month + daysInMonth d.year d.month := by
          omega
      _ = daysBeforeMonth d.year (d.month + 1) :=
          (daysBeforeMonth_succ _ _).symm
      _ ≤ daysBeforeMonth d.year 13 := daysBeforeMonth_mono _ (by omega)
  have h2 := daysBeforeYear_succ d.year hy
  have h3 := daysBeforeMonth_thirteen d.year
  unfold toOrdinal
  split_ifs at h2 h3 <;> omega

theorem toSecs_lt_of_toOrdinal_lt (d1 d2 : PyDateTime) (v1 : dtValid d1)
    (h : toOrdinal d1 < toOrdinal d2) : toSecs d1 < toSecs d2 := by
  obtain ⟨_, _, _, _, _, hh1, hmi1, hs1⟩ := v1
  have hb : d1.hour * 3600 + d1.minute * 60 + d1.second ≤ 86399 := by omega
  have h2 : (toOrdinal d1 + 1) * 86400 ≤ toOrdinal d2 * 86400 :=
    Nat.mul_le_mul_right _ (by omega)
  unfold toSecs
  omega

theorem toSecs_lt_of_year_lt (d1 d2 : PyDateTime) (v1 : dtValid d1)
    (v2 : dtValid d2) (h : d1.year < d2.year) : toSecs d1 < toSecs d2 := by
  have h1 := toOrdinal_le_year_end d1 v1
  have h2 : daysBeforeYear (d1.year + 1) ≤ daysBeforeYear d2.year :=
    daysBeforeYear_mono (by omega) (by omega)
  have h3 : daysBeforeYear d2.year < toOrdinal d2 := by
    obtain ⟨hy, hm1, hm2, hd1, hd2, hh, hmi, hs⟩ := v2
    unfold toOrdinal
    omega
  have h4 : toOrdinal d1 < toOrdinal d2 := by omega
  exact toSecs_lt_of_toOrdinal_lt d1 d2 v1 h4

theorem addMonthClamped_spec (d : PyDateTime) (v : dtValid d) :
    dtValid (addMonthClamped d) ∧ toSecs d < toSecs (addMonthClamped d) := by
  obtain ⟨hy, hm1, hm2, hd1, hd2, hh, hmi, hs⟩ := v
  unfold addMonthClamped
  split
  · next h12 =>
    have hb := daysInMonth_bounds (d.year + 1) 1 (by omega) (by omega)
    have hval : dtValid
        { d with year := d.year + 1, month := 1,
                 day := min d.day (daysInMonth (d.year + 1) 1) } := by
      refine ⟨show 1 ≤ d.year + 1 by omega, show (1 : Nat) ≤ 1 by omega,
        show (1 : Nat) ≤ 12 by omega, ?_, ?_, hh, hmi, hs⟩
      · show 1 ≤ min d.day (daysInMonth (d.year + 1) 1)
        omega
      · show min d.day (daysInMonth (d.year + 1) 1) ≤
          daysInMonth (d.year + 1) 1
        omega
    refine ⟨hval, ?_⟩
    exact toSecs_lt_of_year_lt _ _ ⟨hy, hm1, hm2, hd1, hd2, hh, hmi, hs⟩ hval
      (show d.year < d.year + 1 by omega)
  · next h12 =>
    have hb := daysInMonth_bounds d.year (d.month + 1) (by omega) (by omega)
    have hval : dtValid
        { d with month := d.month + 1,
                 day := min d.day (daysInMonth d.year (d.month + 1)) } := by
      refine ⟨hy, show 1 ≤ d.month + 1 by omega,
        show d.month + 1 ≤ 12 by omega, ?_, ?_, hh, hmi, hs⟩
      · show 1 ≤ min d.day (daysInMonth d.year (d.month + 1))
        omega
      · show min d.day (daysInMonth d.year (d.month + 1)) ≤
          daysInMonth d.year (d.month + 1)
        omega
    refine ⟨hval, ?_⟩
    have hord : toOrdinal d <
        toOrdinal { d with month := d.month + 1,
                           day := min d.day (daysInMonth d.year (d.month + 1)) } := by
      show daysBeforeYear d.year + daysBeforeMonth d.year d.month + d.day <
        daysBeforeYear d.year + daysBeforeMonth d.year (d.month + 1) +
          min d.day (daysInMonth d.year (d.month + 1))
      rw [daysBeforeMonth_succ]
      omega
    exact toSecs_lt_of_toOrdinal_lt _ _
      ⟨hy, hm1, hm2, hd1, hd2, hh, hmi, hs⟩ hord

theorem addYearClamped_spec (d : PyDateTime) (v : dtValid d) :
    dtValid (addYearClamped d) ∧ toSecs d < toSecs (addYearClamped d) := by
  obtain ⟨hy, hm1, hm2, hd1, hd2, hh, hmi, hs⟩ := v
  have hb := daysInMonth_bounds (d.year + 1) d.month (by omega) (by omega)
  have hval : dtValid (addYearClamped d) := by
    refine ⟨show 1 ≤ d.year + 1 by omega, hm1, hm2, ?_, ?_, hh, hmi, hs⟩
    · show 1 ≤ min d.day (daysInMonth (d.year + 1) d.month)
      omega
    · show min d.day (daysInMonth (d.year + 1) d.month) ≤
        daysInMonth (d.year + 1) d.month
      omega
  refine ⟨hval, ?_⟩
  exact toSecs_lt_of_year_lt _ _ ⟨hy, hm1, hm2, hd1, hd2, hh, hmi, hs⟩ hval
    (show d.year < d.year + 1 by omega)

theorem next_occurrence_known (k : List Char) (d : PyDateTime)
    (hk : knownKind k) (v : dtValid d) :
    ∃ d2, next_occurrence d k = some d2 ∧ dtValid d2 ∧
      toSecs d < toSecs d2 := by
  rcases hk with h | h | h | h | h <;> subst h
  · have := addHours_spec 1 d v
    exact ⟨addHours 1 d, by simp [next_occurrence], this.1, by omega⟩
  · have := addDays_spec 1 d v
    refine ⟨addDays 1 d, by simp [next_occurrence, hourlyS, dailyS], this.1,
      by omega⟩
  · have := addDays_spec 7 d v
    refine ⟨addDays 7 d, ?_, this.1, by omega⟩
    simp [next_occurrence, hourlyS, dailyS, weeklyS]
  · have := addMonthClamped_spec d v
    refine ⟨addMonthClamped d, ?_, this.1, by omega⟩
    simp [next_occurrence, hourlyS, dailyS, weeklyS, monthlyS]
  · have := addYearClamped_spec d v
    refine ⟨addYearClamped d, ?_, this.1, by omega⟩
    simp [next_occurrence, hourlyS, dailyS, weeklyS, monthlyS, yearlyS]

theorem advLoop_spec (k : List Char) (now : PyDateTime) :
    ∀ (f : Nat) (cur : PyDateTime), dtValid cur → knownKind k →
      toSecs now + 1 - toSecs cur ≤ f →
      ∃ r n, advLoop k now f cur = some r ∧ dtValid r ∧
        toSecs now < toSecs r ∧ advIterN k n cur = some r ∧
        (∀ m d, m < n → advIterN k m cur = some d →
          toSecs d ≤ toSecs now) := by
  intro f
  induction f with
  | zero =>
      intro cur v hk hfuel
      have hgt : toSecs now < toSecs cur := by omega
      refine ⟨cur, 0, ?_, v, hgt, rfl, ?_⟩
      · simp only [advLoop]
        rw [if_neg (by omega)]
      · intro m d hm
        omega
  | succ f ih =>
      intro cur v hk hfuel
      by_cases hle : toSecs cur ≤ toSecs now
      · obtain ⟨d2, hd2, vd2, hinc⟩ := next_occurrence_known k cur hk v
        have hfuel2 : toSecs now + 1 - toSecs d2 ≤ f := by omega
        obtain ⟨r, n, hr, vr, hgt, hiter, hmin⟩ := ih d2 vd2 hk hfuel2
        refine ⟨r, n + 1, ?_, vr, hgt, ?_, ?_⟩
        · show advLoop k now (f + 1) cur = some r
          simp only [advLoop]
          rw [if_pos hle, hd2]
          simpa using hr
        · show (next_occurrence cur k).bind (advIterN k n) = some r
          rw [hd2]
          simpa using hiter
        · intro m d hm hid
          cases m with
          | zero =>
              simp only [advIterN, Option.some.injEq] at hid
              subst hid
              exact hle
          | succ m2 =>
              have hstep : advIterN k m2 d2 = some d := by
                simpa [advIterN, hd2] using hid
              exact hmin m2 d (by omega) hstep
      · refine ⟨cur, 0, ?_, v, by omega, rfl, ?_⟩
        · simp only [advLoop]
          rw [if_neg hle]
        · intro m d hm
          omega

theorem advanceUntilFuture_spec (k : List Char) (now cur : PyDateTime)
    (v : dtValid cur) (hk : knownKind k) :
    ∃ r n, advanceUntilFuture k now cur = some r ∧ dtValid r ∧
      toSecs now < toSecs r ∧ advIterN k n cur = some r ∧
      (∀ m d, m < n → advIterN k m cur = some d →
        toSecs d ≤ toSecs now) :=
  advLoop_spec k now _ cur v hk (Nat.le_refl _)

/-! ## Search, substitution and table lemmas -/

theorem searchAux_some_iff (p : Nat → Option α) :
    ∀ (f i j : Nat) (a : α),
      searchAux p f i = some (j, a) ↔
        (i ≤ j ∧ j < i + f ∧ p j = some a ∧
          ∀ l, i ≤ l → l < j → p l = none) := by
  intro f
  induction f with
  | zero =>
      intro i j a
      simp [searchAux]
      omega
  | succ f ih =>
      intro i j a
      constructor
      · intro h
        simp only [searchAux] at h
        cases hp : p i with
        | some b =>
            rw [hp] at h
            have hb : (i, b) = (j, a) := by
              simpa using h
            have h1 : i = j := congrArg Prod.fst hb
            have h2 : b = a := congrArg Prod.snd hb
            refine ⟨by omega, by omega, by rw [← h1, hp, h2], ?_⟩
            intro l hl1 hl2
            omega
        | none =>
            rw [hp] at h
            obtain ⟨h1, h2, h3, h4⟩ := (ih (i + 1) j a).mp h
            refine ⟨by omega, by omega, h3, ?_⟩
            intro l hl1 hl2
            rcases Nat.eq_or_lt_of_le hl1 with rfl | hlt
            · exact hp
            · exact h4 l (by omega) hl2
      · rintro ⟨h1, h2, h3, h4⟩
        simp only [searchAux]
        rcases Nat.eq_or_lt_of_le h1 with rfl | hlt
        · rw [h3]
        · rw [h4 i (by omega) hlt]
          exact (ih (i + 1) j a).mpr ⟨by omega, by omega, h3, fun l hl1 hl2 =>
            h4 l (by omega) hl2⟩

theorem searchAux_none_iff (p : Nat → Option α) :
    ∀ (f i : Nat),
      searchAux p f i = none ↔ ∀ l, i ≤ l → l < i + f → p l = none := by
  intro f
  induction f with
  | zero =>
      intro i
      simp [searchAux]
      omega
  | succ f ih =>
      intro i
      simp only [searchAux]
      cases hp : p i with
      | some b =>
          simp only [reduceCtorEq, false_iff]
          intro hall
          have := hall i (by omega) (by omega)
          rw [hp] at this
          cases this
      | none =>
          rw [ih (i + 1)]
          constructor
          · intro hall l hl1 hl2
            rcases Nat.eq_or_lt_of_le hl1 with rfl | hlt
            · exact hp
            · exact hall l (by omega) (by omega)
          · intro hall l hl1 hl2
            exact hall l (by omega) (by omega)

theorem subAux_past (t : List Char) (m : List Char → Nat → Option (Nat × α))
    (repl : α → List Char) :
    ∀ (f i : Nat), t.length ≤ i → subAux t m repl f i = [] := by
  intro f i h
  cases f with
  | zero => rfl
  | succ f =>
      simp only [subAux]
      rw [dif_neg (by omega)]

theorem subAll_single_full (m : List Char → Nat → Option (Nat × α))
    (repl : α → List Char) (t : List Char) (a : α)
    (hm : m t 0 = some (t.length, a)) (hl : 1 ≤ t.length) :
    subAll m repl t = repl a := by
  unfold subAll
  obtain ⟨f, hf⟩ : ∃ f, t.length = f + 1 := ⟨t.length - 1, by omega⟩
  rw [hf]
  simp only [subAux]
  rw [dif_pos (by omega), hm]
  show repl a ++ subAux t m repl f (0 + max (t.length) 1) = repl a
  rw [show (0 + max (t.length) 1) = t.length by omega]
  rw [subAux_past t m repl f t.length (by omega)]
  simp

theorem lookupK_setK {α : Type} (xs : List (Nat × α)) (k : Nat) (v : α) :
    lookupK (setK xs k v) k = some v := by
  simp [setK, lookupK]

theorem lookupK_setK_ne {α : Type} (xs : List (Nat × α)) (k k2 : Nat)
    (v : α) (h : k ≠ k2) : lookupK (setK xs k v) k2 = lookupK xs k2 := by
  simp only [setK, lookupK]
  rw [if_neg h]
  induction xs with
  | nil => rfl
  | cons p rest ih =>
      by_cases hp : p.1 = k
      · simp [eraseK, hp, lookupK]
        rw [if_neg (by omega)]
        simpa [eraseK] using ih
      · simp only [eraseK, List.filter]
        rw [show (decide (p.1 ≠ k)) = true by simpa using hp]
        simp only [lookupK]
        by_cases hp2 : p.1 = k2
        · rw [if_pos hp2, if_pos hp2]
        · rw [if_neg hp2, if_neg hp2]
          simpa [eraseK] using ih

theorem digitAt_lt (t : List Char) (i : Nat) (h : digitAt t i = true) :
    i < t.length := by
  unfold digitAt getC at h
  cases hg : t.get? i with
  | none => rw [hg] at h; cases h
  | some c => exact (List.get?_eq_some.mp hg).1

theorem tryD12_some {β : Type} (t : List Char) (i : Nat)
    (k : Nat → Nat → Option β) (b : β) (h : tryD12 t i k = some b) :
    digitAt t i = true ∧
      (k (10 * dValAt t i + dValAt t (i + 1)) (i + 2) = some b ∨
        k (dValAt t i) (i + 1) = some b) := by
  unfold tryD12 at h
  by_cases h1 : digitAt t i = true
  · rw [if_pos h1] at h
    refine ⟨h1, ?_⟩
    cases h2 : (if digitAt t (i + 1) = true
        then k (10 * dValAt t i + dValAt t (i + 1)) (i + 2) else none) with
    | some r =>
        rw [h2] at h
        have hr : r = b := by simpa using h
        by_cases h3 : digitAt t (i + 1) = true
        · rw [if_pos h3] at h2
          exact Or.inl (hr ▸ h2)
        · rw [if_neg h3] at h2
          cases h2
    | none =>
        rw [h2] at h
        exact Or.inr h
  · rw [if_neg h1] at h
    cases h

theorem charIs_dVal (t : List Char) (i : Nat) (c : Char)
    (h : charIs t i c = true) : dValAt t i = c.toNat - 48 := by
  unfold charIs at h
  unfold dValAt
  cases hg : getC t i with
  | none => rw [hg] at h; cases h
  | some x =>
      rw [hg] at h
      have hx : x = c := by simpa using h
      show x.toNat - 48 = c.toNat - 48
      rw [hx]

theorem chBetween_dVal (t : List Char) (i : Nat) (c lo hi : Char)
    (hg : getC t i = some c) (h : chBetween c lo hi = true)
    (hlo : 48 ≤ lo.toNat) :
    lo.toNat - 48 ≤ dValAt t i ∧ dValAt t i ≤ hi.toNat - 48 := by
  have hb : lo.toNat ≤ c.toNat ∧ c.toNat ≤ hi.toNat := by
    simpa [chBetween] using h
  unfold dValAt
  rw [hg]
  show lo.toNat - 48 ≤ c.toNat - 48 ∧ c.toNat - 48 ≤ hi.toNat - 48
  omega

theorem matchAmbig_payload (t : List Char) (i len h mn : Nat)
    (hm : matchAmbigAt t i = some (len, h, mn)) :
    1 ≤ mn ∧ mn ≤ 12 ∧ i < t.length := by
  unfold matchAmbigAt at hm
  by_cases hb : bndAt t i = true
  · rw [if_pos hb] at hm
    obtain ⟨hd, hcase⟩ := tryD12_some t i _ _ hm
    have hlen := digitAt_lt t i hd
    have main : ∀ v j, (if charIs t j '.' then
        (let c1ok := charIs t (j + 1) '0' &&
          (match getC t (j + 2) with
           | some c => chBetween c '1' '9'
           | none => false)
         let c2ok := charIs t (j + 1) '1' &&
          (match getC t (j + 2) with
           | some c => chBetween c '0' '2'
           | none => false)
         if (c1ok || c2ok) && bndAt t (j + 3) &&
            !((charIs t (j + 3) '.' || charIs t (j + 3) '/') &&
              digitAt t (j + 4)) then
          some (j + 3 - i, v, 10 * dValAt t (j + 1) + dValAt t (j + 2))
         else none)
        else none) = some (len, h, mn) → 1 ≤ mn ∧ mn ≤ 12 := by
      intro v j hk
      by_cases hdot : charIs t j '.' = true
      · rw [if_pos hdot] at hk
        simp only [] at hk
        split at hk
        · next hcond =>
          have hmn : 10 * dValAt t (j + 1) + dValAt t (j + 2) = mn := by
            have heq : (j + 3 - i, v,
                10 * dValAt t (j + 1) + dValAt t (j + 2)) = (len, h, mn) := by
              simpa using hk
            exact congrArg (fun p => p.2.2) heq
          simp only [Bool.and_eq_true, Bool.or_eq_true] at hcond
          rcases hcond.1.1 with h1 | h2
          · obtain ⟨hz, hr⟩ := h1
            have hv1 := charIs_dVal t (j + 1) '0' hz
            cases hg : getC t (j + 2) with
            | none => rw [hg] at hr; cases hr
            | some c =>
                rw [hg] at hr
                have hv2 := chBetween_dVal t (j + 2) c '1' '9' hg hr (by decide)
                have e0 : ('0').toNat = 48 := rfl
                have e1 : ('1').toNat = 49 := rfl
                have e9 : ('9').toNat = 57 := rfl
                omega
          · obtain ⟨hz, hr⟩ := h2
            have hv1 := charIs_dVal t (j + 1) '1' hz
            cases hg : getC t (j + 2) with
            | none => rw [hg] at hr; cases hr
            | some c =>
                rw [hg] at hr
                have hv2 := chBetween_dVal t (j + 2) c '0' '2' hg hr (by decide)
                have e0 : ('0').toNat = 48 := rfl
                have e1 : ('1').toNat = 49 := rfl
                have e2 : ('2').toNat = 50 := rfl
                omega
        · cases hk
      · rw [if_neg hdot] at hk
        cases hk
    rcases hcase with hc | hc
    · exact ⟨(main _ _ hc).1, (main _ _ hc).2, hlen⟩
    · exact ⟨(main _ _ hc).1, (main _ _ hc).2, hlen⟩
  · rw [if_neg hb] at hm
    cases hm

/-- Claim C5: advance(instant, kind) adds one hour for hourly, one day for
daily, seven days for weekly, and one calendar-clamped month or year for
monthly/yearly; the Jan 31 double-monthly chain lands on Feb 28 (Feb 29 in
a leap year) and then the same day of March, never Mar 31 and never an
error; an unknown kind raises. -/
theorem C5_recurrence_advancer :
    (∀ dt : PyDateTime, dtValid dt →
      (next_occurrence dt hourlyS).map toSecs = some (toSecs dt + 3600) ∧
      (next_occurrence dt dailyS).map toSecs = some (toSecs dt + 86400) ∧
      (next_occurrence dt weeklyS).map toSecs =
        some (toSecs dt + 7 * 86400) ∧
      (∀ d2, next_occurrence dt monthlyS = some d2 →
        dtValid d2 ∧ toSecs dt < toSecs d2) ∧
      (∀ d2, next_occurrence dt yearlyS = some d2 →
        dtValid d2 ∧ toSecs dt < toSecs d2)) ∧
    (∀ y h mi s : Nat, 1 ≤ y →
      ∃ feb mar,
        next_occurrence ⟨y, 1, 31, h, mi, s⟩ monthlyS = some feb ∧
        next_occurrence feb monthlyS = some mar ∧
        feb.year = y ∧ feb.month = 2 ∧
        feb.day = (if isLeap y then 29 else 28) ∧
        mar.year = y ∧ mar.month = 3 ∧
        mar.day = (if isLeap y then 29 else 28) ∧ mar.day ≠ 31) ∧
    (∀ (dt : PyDateTime) (k : List Char), ¬ knownKind k →
      next_occurrence dt k = none) := by
  refine ⟨?_, ?_, ?_⟩
  · intro dt v
    refine ⟨?_, ?_, ?_, ?_, ?_⟩
    · have := addHours_spec 1 dt v
      simp [next_occurrence, this.2]
    · have := addDays_spec 1 dt v
      simp [next_occurrence, hourlyS, dailyS, this.2]
    · have := addDays_spec 7 dt v
      simp [next_occurrence, hourlyS, dailyS, weeklyS, this.2]
    · intro d2 h2
      have hm : d2 = addMonthClamped dt := by
        have : next_occurrence dt monthlyS = some (addMonthClamped dt) := by
          simp [next_occurrence, hourlyS, dailyS, weeklyS, monthlyS]
        rw [this] at h2
        simpa using h2.symm
      subst hm
      have := addMonthClamped_spec dt v
      exact ⟨this.1, this.2⟩
    · intro d2 h2
      have hm : d2 = addYearClamped dt := by
        have : next_occurrence dt yearlyS = some (addYearClamped dt) := by
          simp [next_occurrence, hourlyS, dailyS, weeklyS, monthlyS, yearlyS]
        rw [this] at h2
        simpa using h2.symm
      subst hm
      have := addYearClamped_spec dt v
      exact ⟨this.1, this.2⟩
  · intro y h mi s hy
    refine ⟨⟨y, 2, min 31 (daysInMonth y 2), h, mi, s⟩,
      ⟨y, 3, min (min 31 (daysInMonth y 2)) (daysInMonth y 3), h, mi, s⟩,
      ?_, ?_, rfl, rfl, ?_, rfl, rfl, ?_, ?_⟩
    · have : next_occurrence ⟨y, 1, 31, h, mi, s⟩ monthlyS =
          some (addMonthClamped ⟨y, 1, 31, h, mi, s⟩) := by
        simp [next_occurrence, hourlyS, dailyS, weeklyS, monthlyS]
      rw [this]
      unfold addMonthClamped
      simp
    · have : next_occurrence ⟨y, 2, min 31 (daysInMonth y 2), h, mi, s⟩
          monthlyS =
          some (addMonthClamped ⟨y, 2, min 31 (daysInMonth y 2), h, mi, s⟩) :=
        by simp [next_occurrence, hourlyS, dailyS, weeklyS, monthlyS]
      rw [this]
      unfold addMonthClamped
      simp
    · show min 31 (daysInMonth y 2) = if isLeap y then 29 else 28
      unfold daysInMonth
      cases isLeap y <;> simp
    · show min (min 31 (daysInMonth y 2)) (daysInMonth y 3) =
        if isLeap y then 29 else 28
      unfold daysInMonth
      cases isLeap y <;> simp
    · show min (min 31 (daysInMonth y 2)) (daysInMonth y 3) ≠ 31
      unfold daysInMonth
      cases isLeap y <;> simp
  · intro dt k hk
    unfold knownKind at hk
    push_neg at hk
    obtain ⟨h1, h2, h3, h4, h5⟩ := hk
    unfold next_occurrence
    rw [if_neg h1, if_neg h2, if_neg h3, if_neg h4, if_neg h5]

/-- Witness for C5 at concrete instants: the hourly equation at a mid-March
instant, the Jan 31 monthly chain in 2026, and the rejection of an unknown
kind. -/
theorem C5_recurrence_advancer_witness :
    ((next_occurrence ⟨2026, 3, 15, 10, 0, 0⟩ hourlyS).map toSecs =
      some (toSecs ⟨2026, 3, 15, 10, 0, 0⟩ + 3600)) ∧
    (∃ feb mar,
      next_occurrence ⟨2026, 1, 31, 10, 0, 0⟩ monthlyS = some feb ∧
      next_occurrence feb monthlyS = some mar ∧
      feb.year = 2026 ∧ feb.month = 2 ∧
      feb.day = (if isLeap 2026 then 29 else 28) ∧
      mar.year = 2026 ∧ mar.month = 3 ∧
      mar.day = (if isLeap 2026 then 29 else 28) ∧ mar.day ≠ 31) ∧
    next_occurrence ⟨2026, 3, 15, 10, 0, 0⟩ (("biweekly").data) = none :=
  ⟨(C5_recurrence_advancer.1 ⟨2026, 3, 15, 10, 0, 0⟩ (by decide)).1,
   C5_recurrence_advancer.2.1 2026 10 0 0 (by decide),
   C5_recurrence_advancer.2.2 ⟨2026, 3, 15, 10, 0, 0⟩ (("biweekly").data)
     (by decide)⟩

theorem daysInMonth_ne_two (y y2 m : Nat) (h1 : 1 ≤ m) (h2 : m ≤ 12)
    (h : m ≠ 2) : daysInMonth y m = daysInMonth y2 m := by
  interval_cases m <;> simp_all [daysInMonth]

/-- Claim C10 counterexample: on February 29 of a leap year that lies in
the past, the +1-year correction of _shift_to_future produces an invalid
date and the replace raises, so the function is not total there. -/
theorem C10_counterexample :
    toSecs ⟨2024, 2, 29, 12, 0, 0⟩ ≤ toSecs ⟨2026, 1, 1, 0, 0, 0⟩ ∧
      shift_to_future ⟨2024, 2, 29, 12, 0, 0⟩ ⟨2026, 1, 1, 0, 0, 0⟩ =
        none := by
  constructor <;> decide

/-- Claim C10 amended: _shift_to_future returns a datetime for every valid
dt except in the cases the counterexample forces: when dt is not in the
future and the +1-year replace would be invalid (February 29, or the
MAXYEAR bound). -/
theorem C10_shift_total_amended (dt now : PyDateTime) (v : dtValid dt)
    (h : toSecs now < toSecs dt ∨
      (¬(dt.month = 2 ∧ dt.day = 29) ∧ dt.year < 9999)) :
    ∃ r, shift_to_future dt now = some r := by
  obtain ⟨hy, hm1, hm2, hd1, hd2, hh, hmi, hs⟩ := v
  unfold shift_to_future
  by_cases hle : toSecs dt ≤ toSecs now
  · rw [if_pos hle]
    rcases h with h | ⟨hfeb, hmax⟩
    · omega
    · unfold replaceYear
      rw [if_pos ?cond]
      · exact ⟨_, rfl⟩
      case cond =>
        refine ⟨by omega, by omega, ?_⟩
        by_cases hm2' : dt.month = 2
        · have hne : ¬ dt.day = 29 := fun hc => hfeb ⟨hm2', hc⟩
          have e : ∀ yy : Nat, daysInMonth yy 2 =
              if isLeap yy then 29 else 28 := fun _ => rfl
          rw [hm2'] at hd2 ⊢
          rw [e] at hd2
          rw [e]
          split at hd2 <;> split <;> omega
        · rw [daysInMonth_ne_two (dt.year + 1) dt.year dt.month hm1 hm2 hm2']
          exact hd2
  · rw [if_neg hle]
    exact ⟨dt, rfl⟩

/-- Witness for the amended C10 at a concrete past end-of-year instant. -/
theorem C10_shift_total_amended_witness :
    ∃ r, shift_to_future ⟨2026, 12, 31, 10, 0, 0⟩
      ⟨2026, 12, 31, 23, 0, 0⟩ = some r :=
  C10_shift_total_amended ⟨2026, 12, 31, 10, 0, 0⟩ ⟨2026, 12, 31, 23, 0, 0⟩
    (by decide) (Or.inr (by decide))

/-- Claim C6 (code bug): the colloquial rewrites of normalizeTime hold as
specified, but the duration phrase через 2 часа is NOT left intact: the
bare-hour rule rewrites it to через 02:00, so the duration alternative of
the fragment patterns can no longer see it (the repository's own
test_through_hours asserts the intact behaviour).  The last conjunct shows
the fragment that survives is the clock time 02:00. -/
theorem C6_normalize_divergence :
    normalize_time (("в 7 утра").data) = ("в 07:00").data ∧
    normalize_time (("в 2 ночи").data) = ("в 02:00").data ∧
    normalize_time (("в 7 вечера").data) = ("в 19:00").data ∧
    normalize_time (("в 7 вечером").data) = ("в 19:00").data ∧
    normalize_time (("в 2 дня").data) = ("в 14:00").data ∧
    normalize_time (("в 13 часов").data) = ("в 13:00").data ∧
    normalize_time (("в 9-30").data) = ("в 9:30").data ∧
    normalize_time (("в 20").data) = ("в 20:00").data ∧
    normalize_time (("через 30 минут").data) = ("через 30 минут").data ∧
    normalize_time (("через 2 часа").data) = ("через 02:00").data ∧
    ("через 02:00").data ≠ ("через 2 часа").data ∧
    extract_datetime_fragments (normalize_time (("через 2 часа").data)) =
      [("02:00").data] := by
  decide

theorem shortDate_match_render :
    ∀ d ∈ List.range 32, ∀ m ∈ List.range 13,
      ∀ pd ∈ [true, false], ∀ pm ∈ [true, false],
      1 ≤ d → 1 ≤ m →
      matchShortDateAt (renderNum pd d ++ '.' :: renderNum pm m) 0 =
        some ((renderNum pd d ++ '.' :: renderNum pm m).length,
          renderNum pd d, renderNum pm m) := by
  decide

/-- Claim C4: short dotted dates without a year are expanded with the
reference year (first conjunct, over every day/month rendering with or
without a leading zero), and the future shift applies the +1-year
correction exactly once, so the resulting year is the reference year or
its successor and the corrected instant is already strictly in the
future. -/
theorem C4_year_expansion :
    (∀ (now : PyDateTime) (d m : Nat) (pd pm : Bool),
      1 ≤ d → d < 32 → 1 ≤ m → m < 13 →
      expand_short_dates (renderNum pd d ++ '.' :: renderNum pm m)
          now.year =
        renderNum pd d ++ '.' :: renderNum pm m ++ '.' ::
          (Nat.repr now.year).data) ∧
    (∀ (dt now r : PyDateTime), dtValid dt → dtValid now →
      dt.year = now.year → shift_to_future dt now = some r →
      (r.year = now.year ∨ r.year = now.year + 1) ∧
      (toSecs now < toSecs dt → r = dt) ∧
      (toSecs dt ≤ toSecs now →
        r.year = dt.year + 1 ∧ toSecs now < toSecs r)) := by
  constructor
  · intro now d m pd pm hd1 hd2 hm1 hm2
    have key := shortDate_match_render d (List.mem_range.mpr hd2)
      m (List.mem_range.mpr hm2) pd (by cases pd <;> simp)
      pm (by cases pm <;> simp) hd1 hm1
    have hlen : 1 ≤ (renderNum pd d ++ '.' :: renderNum pm m).length := by
      simp
      omega
    have := subAll_single_full matchShortDateAt (expandRepl now.year)
      (renderNum pd d ++ '.' :: renderNum pm m)
      (renderNum pd d, renderNum pm m) key hlen
    unfold expand_short_dates
    rw [this]
    unfold expandRepl
    simp
  · intro dt now r vdt vnow hyear hsh
    unfold shift_to_future at hsh
    by_cases hle : toSecs dt ≤ toSecs now
    · rw [if_pos hle] at hsh
      unfold replaceYear at hsh
      split at hsh
      · next hcond =>
        have hr : r = { dt with year := dt.year + 1 } := by
          simpa using hsh.symm
        subst hr
        obtain ⟨hy, hm1, hm2, hd1, hd2, hh, hmi, hs⟩ := vdt
        have vr : dtValid { dt with year := dt.year + 1 } :=
          ⟨show 1 ≤ dt.year + 1 by omega, hm1, hm2, hd1,
            hcond.2.2, hh, hmi, hs⟩
        refine ⟨Or.inr (by simp [hyear]), ?_, ?_⟩
        · intro hgt
          omega
        · intro _
          refine ⟨rfl, ?_⟩
          exact toSecs_lt_of_year_lt now _ vnow vr (by simp; omega)
      · cases hsh
    · rw [if_neg hle] at hsh
      have hr : r = dt := by simpa using hsh.symm
      subst hr
      exact ⟨Or.inl hyear, fun _ => rfl, fun hc => absurd hc hle⟩

/-- Witness for C4 at the concrete short date 19.02 against a reference
instant in 2026, plus a concrete past instant receiving the single
correction. -/
theorem C4_year_expansion_witness :
    (expand_short_dates (renderNum true 19 ++ '.' :: renderNum true 2)
        (PyDateTime.mk 2026 1 1 0 0 0).year =
      renderNum true 19 ++ '.' :: renderNum true 2 ++ '.' ::
        (Nat.repr (PyDateTime.mk 2026 1 1 0 0 0).year).data) ∧
    ((PyDateTime.mk 2027 12 31 10 0 0).year = 2026 ∨
      (PyDateTime.mk 2027 12 31 10 0 0).year = 2026 + 1) := by
  constructor
  · exact C4_year_expansion.1 ⟨2026, 1, 1, 0, 0, 0⟩ 19 2 true true
      (by decide) (by decide) (by decide) (by decide)
  · have h := C4_year_expansion.2 ⟨2026, 12, 31, 10, 0, 0⟩
      ⟨2026, 12, 31, 23, 0, 0⟩ ⟨2027, 12, 31, 10, 0, 0⟩
      (by decide) (by decide) (by decide) (by decide)
    exact h.1

/-- Claim C9 counterexample: for a raw input with leading whitespace whose
fragments cover everything, the parse succeeds with an empty residue but
returns the STRIPPED raw input, which differs from the original raw input,
against the claimed verbatim fallback. -/
theorem C9_counterexample :
    parse_reminder (fun _ => some ⟨2026, 3, 1, 10, 0, 0⟩)
        ⟨2026, 1, 1, 0, 0, 0⟩ ((" завтра 10:00").data) =
      .ok (some (("завтра 10:00").data, ⟨2026, 3, 1, 10, 0, 0⟩)) ∧
    strip_residue
        (normalize_time (dropNapomni (pyStrip ((" завтра 10:00").data))))
        (extract_datetime_fragments
          (normalize_time (dropNapomni (pyStrip ((" завтра 10:00").data)))))
      = [] ∧
    ("завтра 10:00").data ≠ (" завтра 10:00").data := by
  refine ⟨by decide, by decide, by decide⟩

/-- Claim C9 amended: when the residue of a successful parse is empty, the
returned reminder text is the raw input stripped of surrounding
whitespace (not the raw input verbatim), and is therefore never empty. -/
theorem C9_residue_fallback_amended (dp : List Char → Option PyDateTime)
    (now : PyDateTime) (raw txt : List Char) (dt : PyDateTime)
    (hp : parse_reminder dp now raw = .ok (some (txt, dt)))
    (hres : strip_residue (normalize_time (dropNapomni (pyStrip raw)))
        (extract_datetime_fragments
          (normalize_time (dropNapomni (pyStrip raw)))) = []) :
    txt = pyStrip raw ∧ txt ≠ [] := by
  simp only [parse_reminder] at hp
  by_cases hf : extract_datetime_fragments
      (normalize_time (dropNapomni (pyStrip raw))) = []
  · rw [if_pos hf] at hp
    cases hp
  · rw [if_neg hf] at hp
    split at hp
    · simp at hp
    · split at hp
      · simp at hp
      · rw [if_pos hres] at hp
        simp only [PyResult.ok.injEq, Option.some.injEq,
          Prod.mk.injEq] at hp
        obtain ⟨h1, h2⟩ := hp
        refine ⟨h1.symm, ?_⟩
        rw [h1.symm]
        intro hnil
        rw [hnil] at hf
        exact hf rfl

/-- Witness for the amended C9 at the counterexample input. -/
theorem C9_residue_fallback_amended_witness :
    ("завтра 10:00").data = pyStrip ((" завтра 10:00").data) ∧
      ("завтра 10:00").data ≠ [] :=
  C9_residue_fallback_amended (fun _ => some ⟨2026, 3, 1, 10, 0, 0⟩)
    ⟨2026, 1, 1, 0, 0, 0⟩ ((" завтра 10:00").data) (("завтра 10:00").data)
    ⟨2026, 3, 1, 10, 0, 0⟩ (by decide) (by decide)

/-- Claim C3 counterexample: the text 99.05 5.05 contains the qualifying
dotted pair 5.05 (hour 5 at most 23, minutes 05 in 01..12) and no explicit
time marker elsewhere, yet findAmbiguity returns null, because the
leftmost pattern match 99.05 has an hour guess above 23 and the search
never reaches the later pair. -/
theorem C3_counterexample :
    ambigPairSomewhere (("99.05 5.05").data) = true ∧
    matchAmbigAt (("99.05 5.05").data) 6 = some (4, 5, 5) ∧
    has_explicit_time (excise (("99.05 5.05").data) 6 4) = false ∧
    find_dot_ambiguity (("99.05 5.05").data) = none := by
  refine ⟨by decide, by decide, by decide, by decide⟩

/-- Claim C3 amended: findAmbiguity is decided by the LEFTMOST dotted-pair
match: it returns a triple exactly when the leftmost match of the
ambiguous pattern has an hour guess at most 23 and excising it leaves no
explicit time marker; the returned fragment is that leftmost match, and
every match of the pattern already has a minute guess in 01..12 (so a
pair with minutes 00 or above 12 never triggers it). -/
theorem C3_find_ambiguity_amended (t : List Char) :
    (∀ i len h mn, matchAmbigAt t i = some (len, h, mn) →
      1 ≤ mn ∧ mn ≤ 12) ∧
    (∀ f h mn, find_dot_ambiguity t = some (f, h, mn) ↔
      ∃ i len, matchAmbigAt t i = some (len, h, mn) ∧
        (∀ j, j < i → matchAmbigAt t j = none) ∧
        h ≤ 23 ∧ has_explicit_time (excise t i len) = false ∧
        f = sliceCh t i len) := by
  constructor
  · intro i len h mn hm
    have := matchAmbig_payload t i len h mn hm
    exact ⟨this.1, this.2.1⟩
  · intro f h mn
    constructor
    · intro hfind
      unfold find_dot_ambiguity at hfind
      cases hs : searchFrom0 (fun i => matchAmbigAt t i) t.length with
      | none =>
          rw [hs] at hfind
          cases hfind
      | some pr =>
          obtain ⟨i, len0, h0, mn0⟩ := pr
          rw [hs] at hfind
          have hfind2 : (if 23 < h0 then none
              else if has_explicit_time (excise t i len0) = true then none
              else some (sliceCh t i len0, h0, mn0)) =
              some (f, h, mn) := hfind
          clear hfind
          rename' hfind2 => hfind
          by_cases h23 : 23 < h0
          · rw [if_pos h23] at hfind
            cases hfind
          · rw [if_neg h23] at hfind
            by_cases hex : has_explicit_time (excise t i len0) = true
            · rw [if_pos hex] at hfind
              cases hfind
            · rw [if_neg hex] at hfind
              simp only [Option.some.injEq, Prod.mk.injEq] at hfind
              obtain ⟨hfe, hhe, hme⟩ := hfind
              obtain ⟨_, _, hpi, hleast⟩ :=
                (searchAux_some_iff (fun i => matchAmbigAt t i)
                  t.length 0 i (len0, h0, mn0)).mp hs
              refine ⟨i, len0, ?_, ?_, ?_, ?_, ?_⟩
              · rw [hpi, hhe, hme]
              · intro j hj
                exact hleast j (by omega) hj
              · omega
              · simpa using hex
              · exact hfe.symm
    · rintro ⟨i, len, hm, hleast, hh, hex, hf⟩
      have hbound := (matchAmbig_payload t i len h mn hm).2.2
      have hs : searchFrom0 (fun i => matchAmbigAt t i) t.length =
          some (i, (len, h, mn)) := by
        exact (searchAux_some_iff (fun i => matchAmbigAt t i)
          t.length 0 i (len, h, mn)).mpr
          ⟨by omega, by omega, hm, fun l _ hl => hleast l hl⟩
      unfold find_dot_ambiguity
      rw [hs]
      show (if 23 < h then none
          else if has_explicit_time (excise t i len) = true then none
          else some (sliceCh t i len, h, mn)) = some (f, h, mn)
      rw [if_neg (by omega)]
      rw [if_neg (by simp [hex])]
      rw [hf]

/-- Witness for the amended C3 at the source test input встреча 18.02. -/
theorem C3_find_ambiguity_amended_witness :
    find_dot_ambiguity (("встреча 18.02").data) =
      some ((("18.02").data), 18, 2) ∧ (1 ≤ 2 ∧ 2 ≤ 12) :=
  ⟨((C3_find_ambiguity_amended (("встреча 18.02").data)).2
      (("18.02").data) 18 2).mpr
    ⟨8, 5, by decide, by decide, by decide, by decide, by decide⟩,
   (C3_find_ambiguity_amended (("встреча 18.02").data)).1 8 5 18 2
     (by decide)⟩

/-- Claim C8: every mutating handler (confirm, snooze, snooze-a-day,
reschedule, delete) reacts to a missing reminder id and to a reminder of
another owner with the SAME outcome: tables unchanged, no message edit,
and the one generic not-found response of that handler, so the actor
cannot distinguish the two causes. -/
theorem C8_owner_guard (db : DB) (jobs : Jobs) (now : PyDateTime)
    (actor rid : Nat)
    (hguard : lookupK db rid = none ∨
      ∃ rem, lookupK db rid = some rem ∧ rem.user_id ≠ actor) :
    (∀ action, handle_reminder_callback now db jobs actor rid action =
      ⟨db, jobs, none, some notFoundAlert⟩) ∧
    handle_snooze_day now db jobs actor rid =
      ⟨db, jobs, none, some notFoundAlert⟩ ∧
    (∀ fsm, handle_reschedule_start ⟨db, jobs, fsm⟩ actor rid =
      ⟨⟨db, jobs, fsm⟩, none, some notFoundAlert⟩) ∧
    do_delete db actor rid = (db, notFoundMsg) := by
  rcases hguard with hnone | ⟨rem, hsome, hne⟩
  · refine ⟨?_, ?_, ?_, ?_⟩
    · intro action
      simp [handle_reminder_callback, hnone]
    · simp [handle_snooze_day, hnone]
    · intro fsm
      simp [handle_reschedule_start, hnone]
    · simp [do_delete, hnone]
  · refine ⟨?_, ?_, ?_, ?_⟩
    · intro action
      simp [handle_reminder_callback, hsome, hne]
    · simp [handle_snooze_day, hsome, hne]
    · intro fsm
      simp [handle_reschedule_start, hsome, hne]
    · simp [do_delete, hsome, hne]

/-- Witness for C8: a foreign actor (999) acting on reminder 1 of owner
100 gets the generic not-found outcome from each handler. -/
theorem C8_owner_guard_witness :
    (handle_reminder_callback ⟨2026, 3, 18, 9, 0, 0⟩
        [(1, ⟨100, [], ⟨2026, 3, 19, 8, 0, 0⟩, true, false, false, none,
          none, none⟩)] [] 999 1 CbAction.done =
      ⟨[(1, ⟨100, [], ⟨2026, 3, 19, 8, 0, 0⟩, true, false, false, none,
          none, none⟩)], [], none, some notFoundAlert⟩) ∧
    do_delete [(1, ⟨100, [], ⟨2026, 3, 19, 8, 0, 0⟩, true, false, false,
        none, none, none⟩)] 999 1 =
      ([(1, ⟨100, [], ⟨2026, 3, 19, 8, 0, 0⟩, true, false, false, none,
          none, none⟩)], notFoundMsg) := by
  have h := C8_owner_guard
    [(1, ⟨100, [], ⟨2026, 3, 19, 8, 0, 0⟩, true, false, false, none,
      none, none⟩)] [] ⟨2026, 3, 18, 9, 0, 0⟩ 999 1
    (Or.inr ⟨⟨100, [], ⟨2026, 3, 19, 8, 0, 0⟩, true, false, false, none,
      none, none⟩, by decide, by decide⟩)
  exact ⟨h.1 CbAction.done, h.2.2.2⟩

/-- Claim C7: canceling a reschedule-in-progress restores the timer that
was captured before the sub-dialog started: after reschedule-start (which
cancels the armed job) followed by cancel, a job for the reminder exists
again, at the original remindAt, or at now when that instant has passed;
the reminder row itself is untouched. -/
theorem C7_cancel_restores_timer (st : BotState) (actor rid : Nat)
    (rem : Rem) (now : PyDateTime)
    (hlook : lookupK st.db rid = some rem)
    (howner : rem.user_id = actor) (hrid : rid ≠ 0) :
    lookupK ((cmd_cancel now
        (handle_reschedule_start st actor rid).state).state).jobs rid =
      some (if toSecs now < toSecs rem.remind_at then rem.remind_at
            else now) ∧
    ((cmd_cancel now
        (handle_reschedule_start st actor rid).state).state).db = st.db ∧
    ((cmd_cancel now
        (handle_reschedule_start st actor rid).state).state).fsm =
      Fsm.idle := by
  have hstart : handle_reschedule_start st actor rid =
      ⟨⟨st.db, eraseK st.jobs rid,
        .waitingReschedule (some rid) (some rem.remind_at)⟩,
       some (banner rem.text reschedulePromptSuffix), some emptyAnswer⟩ := by
    unfold handle_reschedule_start
    rw [hlook]
    show (if rem.user_id ≠ actor then _ else _) = _
    rw [if_neg (by omega)]
  rw [hstart]
  have hcancel : cmd_cancel now
      ⟨st.db, eraseK st.jobs rid,
        .waitingReschedule (some rid) (some rem.remind_at)⟩ =
      ⟨⟨st.db, setK (eraseK st.jobs rid) rid
          (if toSecs now < toSecs rem.remind_at then rem.remind_at
           else now), .idle⟩, none, some cancelledMsg⟩ := by
    unfold cmd_cancel
    show (⟨⟨st.db, if rid ≠ 0 then _ else _, _⟩, _, _⟩ : SOut) = _
    rw [if_pos hrid]
  rw [hcancel]
  exact ⟨lookupK_setK _ _ _, rfl, rfl⟩

/-- Witness for C7: reminder 1 of owner 100 with a future original instant
is re-armed at that instant after a canceled reschedule. -/
theorem C7_cancel_restores_timer_witness :
    lookupK ((cmd_cancel ⟨2026, 3, 18, 9, 0, 0⟩
        (handle_reschedule_start
          ⟨[(1, ⟨100, [], ⟨2026, 3, 19, 8, 0, 0⟩, true, false, false,
            none, none, none⟩)],
            [(1, ⟨2026, 3, 19, 8, 0, 0⟩)], Fsm.idle⟩ 100 1).state).state).jobs
      1 =
      some (if toSecs (⟨2026, 3, 18, 9, 0, 0⟩ : PyDateTime) <
          toSecs (⟨2026, 3, 19, 8, 0, 0⟩ : PyDateTime)
        then (⟨2026, 3, 19, 8, 0, 0⟩ : PyDateTime)
        else ⟨2026, 3, 18, 9, 0, 0⟩) :=
  (C7_cancel_restores_timer
    ⟨[(1, ⟨100, [], ⟨2026, 3, 19, 8, 0, 0⟩, true, false, false, none, none,
      none⟩)], [(1, ⟨2026, 3, 19, 8, 0, 0⟩)], Fsm.idle⟩ 100 1
    ⟨100, [], ⟨2026, 3, 19, 8, 0, 0⟩, true, false, false, none, none, none⟩
    ⟨2026, 3, 18, 9, 0, 0⟩ (by decide) (by decide) (by decide)).1

/-- Claim C2: the startup re-registration handles one snapshot reminder as
specified: an overdue recurring reminder is advanced from its anchor (or
from remindAt when the anchor is null) to the first occurrence strictly
after the owner's now, persisted into both remindAt and the anchor and
scheduled there; an overdue one-shot reminder gets a job at now (firing
immediately); a future reminder is scheduled at its remindAt.
load_pending_reminders folds this step over the is_active and
not-is_confirmed snapshot. -/
theorem C2_startup_reload (now : PyDateTime) (db : DB) (jobs : Jobs)
    (rid : Nat) (r : Rem) :
    (∀ kind, toSecs r.remind_at ≤ toSecs now →
      r.recurrence = some kind → knownKind kind →
      dtValid (r.recurrence_anchor.getD r.remind_at) →
      lookupK db rid = some r →
      ∃ next db2 jobs2 n,
        load_pending_step now (db, jobs) (rid, r) = .ok (db2, jobs2) ∧
        lookupK db2 rid = some { r with remind_at := next,
                                        recurrence_anchor := some next } ∧
        lookupK jobs2 rid = some next ∧
        toSecs now < toSecs next ∧
        advIterN kind n (r.recurrence_anchor.getD r.remind_at) =
          some next ∧
        (∀ m d, m < n →
          advIterN kind m (r.recurrence_anchor.getD r.remind_at) =
            some d → toSecs d ≤ toSecs now)) ∧
    (toSecs r.remind_at ≤ toSecs now → r.recurrence = none →
      load_pending_step now (db, jobs) (rid, r) =
        .ok (db, setK jobs rid now)) ∧
    (toSecs now < toSecs r.remind_at →
      load_pending_step now (db, jobs) (rid, r) =
        .ok (db, setK jobs rid r.remind_at)) := by
  refine ⟨?_, ?_, ?_⟩
  · intro kind hdue hrec hk hv hlook
    obtain ⟨next, n, hloop, vnext, hgt, hiter, hmin⟩ :=
      advanceUntilFuture_spec kind now (r.recurrence_anchor.getD r.remind_at)
        hv hk
    refine ⟨next,
      setK db rid { r with remind_at := next,
                           recurrence_anchor := some next },
      setK jobs rid next, n, ?_, ?_, ?_, hgt, hiter, hmin⟩
    · simp only [load_pending_step, hrec, hloop, hlook, if_pos hdue]
    · exact lookupK_setK _ _ _
    · exact lookupK_setK _ _ _
  · intro hdue hrec
    unfold load_pending_step
    rw [if_pos hdue, hrec]
  · intro hfut
    unfold load_pending_step
    rw [if_neg (show ¬ toSecs (rid, r).2.remind_at ≤ toSecs now from
      show ¬ toSecs r.remind_at ≤ toSecs now by omega)]

/-- Witness for C2 at three concrete snapshot rows: a dormant daily
recurring reminder with a null anchor, an overdue one-shot reminder, and a
future one. -/
theorem C2_startup_reload_witness :
    (∃ next db2 jobs2 n,
      load_pending_step ⟨2026, 3, 18, 9, 0, 0⟩
          ([(2, ⟨100, [], ⟨2026, 3, 10, 8, 0, 0⟩, true, false, false, none,
            some dailyS, none⟩)], [])
          (2, ⟨100, [], ⟨2026, 3, 10, 8, 0, 0⟩, true, false, false, none,
            some dailyS, none⟩) = .ok (db2, jobs2) ∧
      lookupK db2 2 = some { (⟨100, [], ⟨2026, 3, 10, 8, 0, 0⟩, true,
            false, false, none, some dailyS, none⟩ : Rem) with
          remind_at := next, recurrence_anchor := some next } ∧
      lookupK jobs2 2 = some next ∧
      toSecs (⟨2026, 3, 18, 9, 0, 0⟩ : PyDateTime) < toSecs next ∧
      advIterN dailyS n ((none : Option PyDateTime).getD
        ⟨2026, 3, 10, 8, 0, 0⟩) = some next ∧
      (∀ m d, m < n → advIterN dailyS m ((none : Option PyDateTime).getD
          ⟨2026, 3, 10, 8, 0, 0⟩) = some d →
        toSecs d ≤ toSecs (⟨2026, 3, 18, 9, 0, 0⟩ : PyDateTime))) ∧
    load_pending_step ⟨2026, 3, 18, 9, 0, 0⟩ ([], [])
        (3, ⟨100, [], ⟨2026, 3, 10, 8, 0, 0⟩, true, false, false, none,
          none, none⟩) =
      .ok ([], setK [] 3 ⟨2026, 3, 18, 9, 0, 0⟩) ∧
    load_pending_step ⟨2026, 3, 18, 9, 0, 0⟩ ([], [])
        (4, ⟨100, [], ⟨2026, 3, 20, 8, 0, 0⟩, true, false, false, none,
          none, none⟩) =
      .ok ([], setK [] 4 ⟨2026, 3, 20, 8, 0, 0⟩) :=
  ⟨(C2_startup_reload ⟨2026, 3, 18, 9, 0, 0⟩
      [(2, ⟨100, [], ⟨2026, 3, 10, 8, 0, 0⟩, true, false, false, none,
        some dailyS, none⟩)] []
      2 ⟨100, [], ⟨2026, 3, 10, 8, 0, 0⟩, true, false, false, none,
        some dailyS, none⟩).1 dailyS (by decide) (by decide)
      (by decide) (by decide) (by decide),
   (C2_startup_reload ⟨2026, 3, 18, 9, 0, 0⟩ [] [] 3
      ⟨100, [], ⟨2026, 3, 10, 8, 0, 0⟩, true, false, false, none, none,
        none⟩).2.1 (by decide) (by decide),
   (C2_startup_reload ⟨2026, 3, 18, 9, 0, 0⟩ [] [] 4
      ⟨100, [], ⟨2026, 3, 20, 8, 0, 0⟩, true, false, false, none, none,
        none⟩).2.2 (by decide)⟩

/-- Claim C1 (settled against the spec-modelled recurring confirm branch,
with the advancer taken from the checked scheduler source): confirming a
recurring reminder advances repeatedly from the recurrence anchor until
the result is strictly after now, stores that instant in both remindAt
and the anchor, leaves isActive true and isConfirmed false, and re-arms
the timer at the advanced instant; the reminder is never terminated. -/
theorem C1_confirm_recurring (now : PyDateTime) (db : DB) (jobs : Jobs)
    (actor rid : Nat) (rem : Rem) (kind : List Char) (anchor : PyDateTime)
    (hlook : lookupK db rid = some rem)
    (howner : rem.user_id = actor)
    (hact : rem.is_active = true)
    (hrec : rem.recurrence = some kind)
    (hk : knownKind kind)
    (hanchor : rem.recurrence_anchor = some anchor)
    (hv : dtValid anchor) :
    ∃ next out n,
      handle_done_recurring now db jobs actor rid = .ok out ∧
      lookupK out.db rid = some { rem with remind_at := next,
                                           recurrence_anchor := some next,
                                           is_confirmed := false } ∧
      ({ rem with remind_at := next,
                  recurrence_anchor := some next,
                  is_confirmed := false } : Rem).is_active = true ∧
      lookupK out.jobs rid = some next ∧
      toSecs now < toSecs next ∧
      1 ≤ n ∧ advIterN kind n anchor = some next ∧
      (∀ m d, 1 ≤ m → m < n → advIterN kind m anchor = some d →
        toSecs d ≤ toSecs now) := by
  obtain ⟨d2, hd2, vd2, hinc⟩ := next_occurrence_known kind anchor hk hv
  obtain ⟨next, n, hloop, vnext, hgt, hiter, hmin⟩ :=
    advanceUntilFuture_spec kind now d2 vd2 hk
  have hbind : (next_occurrence anchor kind).bind
      (advanceUntilFuture kind now) = some next := by
    rw [hd2]
    simpa using hloop
  refine ⟨next, ⟨setK db rid { rem with remind_at := next,
                                        recurrence_anchor := some next,
                                        is_confirmed := false },
    setK (eraseK jobs rid) rid next,
    some (banner rem.text nextOccSuffix), some emptyAnswer⟩, n + 1,
    ?_, ?_, ?_, ?_, hgt, by omega, ?_, ?_⟩
  · simp only [handle_done_recurring, hlook, hrec, hanchor, Option.getD,
      hbind]
    rw [if_neg (by omega)]
  · exact lookupK_setK _ _ _
  · exact hact
  · exact lookupK_setK _ _ _
  · show (next_occurrence anchor kind).bind (advIterN kind n) = some next
    rw [hd2]
    simpa using hiter
  · intro m d hm1 hm2 hid
    cases m with
    | zero => omega
    | succ m2 =>
        have hstep : advIterN kind m2 d2 = some d := by
          have : (next_occurrence anchor kind).bind (advIterN kind m2) =
              some d := hid
          rw [hd2] at this
          simpa using this
        exact hmin m2 d (by omega) hstep

/-- Witness for C1 at the dormant daily reminder of the spec's scenario D:
anchor 2026-03-15 08:00, confirmed at 2026-03-18 09:00. -/
theorem C1_confirm_recurring_witness :
    ∃ next out n,
      handle_done_recurring ⟨2026, 3, 18, 9, 0, 0⟩
          [(1, ⟨100, [], ⟨2026, 3, 15, 8, 0, 0⟩, true, false, false, none,
            some dailyS, some ⟨2026, 3, 15, 8, 0, 0⟩⟩)] [] 100 1 =
        .ok out ∧
      lookupK out.db 1 = some
        { (⟨100, [], ⟨2026, 3, 15, 8, 0, 0⟩, true, false, false, none,
             some dailyS, some ⟨2026, 3, 15, 8, 0, 0⟩⟩ : Rem) with
             remind_at := next,
             recurrence_anchor := some next,
             is_confirmed := false } ∧
      ({ (⟨100, [], ⟨2026, 3, 15, 8, 0, 0⟩, true, false, false, none,
            some dailyS, some ⟨2026, 3, 15, 8, 0, 0⟩⟩ : Rem) with
            remind_at := next,
            recurrence_anchor := some next,
            is_confirmed := false } : Rem).is_active = true ∧
      lookupK out.jobs 1 = some next ∧
      toSecs (⟨2026, 3, 18, 9, 0, 0⟩ : PyDateTime) < toSecs next ∧
      1 ≤ n ∧ advIterN dailyS n ⟨2026, 3, 15, 8, 0, 0⟩ = some next ∧
      (∀ m d, 1 ≤ m → m < n →
        advIterN dailyS m ⟨2026, 3, 15, 8, 0, 0⟩ = some d →
        toSecs d ≤ toSecs (⟨2026, 3, 18, 9, 0, 0⟩ : PyDateTime)) :=
  C1_confirm_recurring ⟨2026, 3, 18, 9, 0, 0⟩
    [(1, ⟨100, [], ⟨2026, 3, 15, 8, 0, 0⟩, true, false, false, none,
      some dailyS, some ⟨2026, 3, 15, 8, 0, 0⟩⟩)] [] 100 1
    ⟨100, [], ⟨2026, 3, 15, 8, 0, 0⟩, true, false, false, none,
      some dailyS, some ⟨2026, 3, 15, 8, 0, 0⟩⟩
    dailyS ⟨2026, 3, 15, 8, 0, 0⟩ (by decide) (by decide) (by decide)
    (by decide) (by decide) (by decide) (by decide)
